import Mathlib

/-!
Verification development for the Telegram-markdown escaping transcoder of
`src/utils/escape.py`.

Text is modelled as `List Char`.  Each regex-driven rewrite pass of
`escape` is translated into an executable Lean function that implements
the semantics of the specific pattern used on that source line (leftmost,
non-overlapping scanning; lazy groups grow one character at a time; greedy
counted repetitions try the longer alternative first).  The generic
`replace_all`/`find_all_index` primitive is modelled parametrically in the
list of capture-group spans that `re.finditer` would produce; the
well-formedness that the regex engine guarantees for those spans
(matches are in increasing position and non-overlapping) is the
`chainOk` hypothesis.
-/

/-- Character constants, named to avoid escaping pitfalls in literals. -/
def nlC : Char := Char.ofNat 10

/-- Backslash character. -/
def bsC : Char := Char.ofNat 92

/-- Backtick character. -/
def bqC : Char := Char.ofNat 96

/-- At-sign character, the sentinel alphabet's main letter. -/
def atC : Char := Char.ofNat 64

/-- Caret character, the link sentinel's second letter. -/
def hatC : Char := Char.ofNat 94

/-- String literal to character list. -/
def strL (s : String) : List Char := s.toList

/-- Python's `\s` class restricted to the ASCII whitespace the code meets:
space, tab, newline, carriage return, vertical tab, form feed. -/
def isPySpace (c : Char) : Bool :=
  c = Char.ofNat 32 || c = Char.ofNat 9 || c = Char.ofNat 10 ||
  c = Char.ofNat 13 || c = Char.ofNat 11 || c = Char.ofNat 12

/-- Python slice `text[j:k]` (clamped at both ends). -/
def pySlice (t : List Char) (j k : Nat) : List Char := (t.take k).drop j

/-- Concatenation of a list of strings, Python's `''.join`. -/
def catParts : List (List Char) → List Char
  | [] => []
  | x :: r => x ++ catParts r

/-- Flatten capture spans into the flat index list that the loop of
`find_all_index` (escape.py lines 13-18) builds by appending
`match.start(1)` and `match.end(1)` for every participating group. -/
def flatPairs : List (Nat × Nat) → List Nat
  | [] => []
  | (s, e) :: r => s :: e :: flatPairs r

/-- `find_all_index` (escape.py lines 3-20): `[0] + all capture bounds + [len]`.
The regex engine is abstracted by the list `caps` of spans of the matches in
which the capture group participated, in scan order. -/
def find_all_index (n : Nat) (caps : List (Nat × Nat)) : List Nat :=
  (0 :: flatPairs caps) ++ [n]

/-- Consecutive pairs of a list: `(l[0],l[1]), (l[2],l[3]), …`, mirroring the
`range(…, …, 2)` loops of `replace_all` (escape.py lines 37 and 43). -/
def chunkPairs : List Nat → List (Nat × Nat)
  | a :: b :: r => (a, b) :: chunkPairs r
  | _ => []

/-- `replace_all` (escape.py lines 22-60): split the text at the capture
boundaries, apply `f` to the captured (odd) chunks, keep the even chunks,
pad the shorter list with an empty string, interleave, and join. -/
def replace_all (t : List Char) (caps : List (Nat × Nat))
    (f : List Char → List Char) : List Char :=
  let poslist := find_all_index t.length caps
  let matched := (chunkPairs poslist.tail).map (fun p => f (pySlice t p.1 p.2))
  let preserved := (chunkPairs poslist).map (fun p => pySlice t p.1 p.2)
  let matched2 := if matched.length < preserved.length then matched ++ [[]] else matched
  let preserved2 := if preserved.length < matched.length then preserved ++ [[]] else preserved
  catParts ((preserved2.zip matched2).map (fun pr => pr.1 ++ pr.2))

/-- Well-formedness of a capture-span list as produced by `re.finditer`:
spans come in scan order, are non-overlapping and lie inside the text
(`lo` is the earliest position the next span may start at). -/
def chainOk (n : Nat) : Nat → List (Nat × Nat) → Bool
  | lo, [] => decide (lo ≤ n)
  | lo, (s, e) :: r => decide (lo ≤ s) && decide (s ≤ e) && chainOk n e r

/-- Specification of the Selective Span Transform: walk the Preserve and
Transform regions in order, copying Preserve text verbatim and applying `f`
to each captured region. -/
def segs (t : List Char) (f : List Char → List Char) :
    Nat → List (Nat × Nat) → List Char
  | pos, [] => pySlice t pos t.length
  | pos, (s, e) :: r => pySlice t pos s ++ f (pySlice t s e) ++ segs t f e r

/-- Pad the shorter of the two lists with an empty string (Python lines
49-52) and interleave preserved/transformed parts (lines 55-58), joining. -/
def glue (ps ms : List (List Char)) : List Char :=
  catParts
    (((if ps.length < ms.length then ps ++ [[]] else ps).zip
      (if ms.length < ps.length then ms ++ [[]] else ms)).map (fun pr => pr.1 ++ pr.2))

/-- `replace_all` with the start of the position list generalised, used to
run the induction for `replace_all`'s correctness. -/
def replaceCore (t : List Char) (f : List Char → List Char)
    (start : Nat) (caps : List (Nat × Nat)) : List Char :=
  glue ((chunkPairs ((start :: flatPairs caps) ++ [t.length])).map
          (fun p => pySlice t p.1 p.2))
       ((chunkPairs (((start :: flatPairs caps) ++ [t.length]).tail)).map
          (fun p => f (pySlice t p.1 p.2)))

theorem replace_all_eq_core (t : List Char) (caps : List (Nat × Nat))
    (f : List Char → List Char) :
    replace_all t caps f = replaceCore t f 0 caps := rfl

theorem chunkPairs_flat_len (caps : List (Nat × Nat)) (n : Nat) :
    (chunkPairs (flatPairs caps ++ [n])).length = caps.length := by
  induction caps with
  | nil => rfl
  | cons p r ih =>
    obtain ⟨s, e⟩ := p
    have h : chunkPairs (flatPairs ((s, e) :: r) ++ [n])
        = (s, e) :: chunkPairs (flatPairs r ++ [n]) := rfl
    rw [h, List.length_cons, ih]
    rfl

theorem chunkPairs_cons_flat_len (caps : List (Nat × Nat)) (e n : Nat) :
    (chunkPairs (e :: (flatPairs caps ++ [n]))).length = caps.length + 1 := by
  induction caps generalizing e with
  | nil => rfl
  | cons p r ih =>
    obtain ⟨s, e'⟩ := p
    have h : chunkPairs (e :: (flatPairs ((s, e') :: r) ++ [n]))
        = (e, s) :: chunkPairs (e' :: (flatPairs r ++ [n])) := rfl
    rw [h, List.length_cons, ih e']
    rfl

theorem glue_cons (p m : List Char) (ps ms : List (List Char))
    (h : ps.length = ms.length + 1) :
    glue (p :: ps) (m :: ms) = p ++ m ++ glue ps ms := by
  have h1 : ¬ ((p :: ps).length < (m :: ms).length) := by
    simp only [List.length_cons]; omega
  have h2 : (m :: ms).length < (p :: ps).length := by
    simp only [List.length_cons]; omega
  have h3 : ¬ (ps.length < ms.length) := by omega
  have h4 : ms.length < ps.length := by omega
  unfold glue
  rw [if_neg h1, if_pos h2, if_neg h3, if_pos h4,
      show (m :: ms) ++ [[]] = m :: (ms ++ [[]]) from rfl, List.zip_cons_cons,
      List.map_cons]
  simp [catParts]

theorem replaceCore_nil (t : List Char) (f : List Char → List Char)
    (start : Nat) :
    replaceCore t f start [] = pySlice t start t.length := by
  unfold replaceCore glue
  simp [flatPairs, chunkPairs, catParts]

theorem replaceCore_cons (t : List Char) (f : List Char → List Char)
    (start s e : Nat) (r : List (Nat × Nat)) :
    replaceCore t f start ((s, e) :: r)
      = pySlice t start s ++ f (pySlice t s e) ++ replaceCore t f e r := by
  have e1 : (chunkPairs ((start :: flatPairs ((s, e) :: r)) ++ [t.length])).map
        (fun p => pySlice t p.1 p.2)
      = pySlice t start s :: (chunkPairs (e :: (flatPairs r ++ [t.length]))).map
          (fun p => pySlice t p.1 p.2) := rfl
  have e2 : (chunkPairs (((start :: flatPairs ((s, e) :: r)) ++ [t.length]).tail)).map
        (fun p => f (pySlice t p.1 p.2))
      = f (pySlice t s e) :: (chunkPairs (flatPairs r ++ [t.length])).map
          (fun p => f (pySlice t p.1 p.2)) := rfl
  have hlen : ((chunkPairs (e :: (flatPairs r ++ [t.length]))).map
        (fun p => pySlice t p.1 p.2)).length
      = ((chunkPairs (flatPairs r ++ [t.length])).map
          (fun p => f (pySlice t p.1 p.2))).length + 1 := by
    rw [List.length_map, List.length_map, chunkPairs_cons_flat_len,
        chunkPairs_flat_len]
  unfold replaceCore
  rw [e1, e2, glue_cons _ _ _ _ hlen]
  rfl

theorem replaceCore_eq_segs (t : List Char) (f : List Char → List Char) :
    ∀ (caps : List (Nat × Nat)) (start : Nat),
      replaceCore t f start caps = segs t f start caps := by
  intro caps
  induction caps with
  | nil => intro start; rw [replaceCore_nil]; rfl
  | cons p r ih =>
    intro start
    obtain ⟨s, e⟩ := p
    rw [replaceCore_cons, ih e]
    simp [segs, List.append_assoc]

theorem chainOk_le (n : Nat) :
    ∀ (caps : List (Nat × Nat)) (lo : Nat), chainOk n lo caps = true → lo ≤ n := by
  intro caps
  induction caps with
  | nil => intro lo h; simpa [chainOk] using h
  | cons p r ih =>
    intro lo h
    obtain ⟨s, e⟩ := p
    simp only [chainOk, Bool.and_eq_true, decide_eq_true_eq] at h
    exact le_trans (le_trans h.1.1 h.1.2) (ih e h.2)

theorem pySlice_append (t : List Char) (j k l : Nat) (h1 : j ≤ k) (h2 : k ≤ l) :
    pySlice t j k ++ pySlice t k l = pySlice t j l := by
  unfold pySlice
  rw [List.drop_take, List.drop_take, List.drop_take]
  have hd : t.drop k = (t.drop j).drop (k - j) := by
    rw [List.drop_drop]; congr 1; omega
  rw [hd, ← List.take_add]
  congr 1
  omega

theorem segs_id (t : List Char) :
    ∀ (caps : List (Nat × Nat)) (lo : Nat), chainOk t.length lo caps = true →
      segs t (fun x => x) lo caps = pySlice t lo t.length := by
  intro caps
  induction caps with
  | nil => intro lo _; simp [segs]
  | cons p r ih =>
    intro lo h
    obtain ⟨s, e⟩ := p
    simp only [chainOk, Bool.and_eq_true, decide_eq_true_eq] at h
    have he : e ≤ t.length := chainOk_le t.length r e h.2
    simp only [segs]
    rw [ih e h.2, List.append_assoc, pySlice_append t s e t.length h.1.2 he,
        pySlice_append t lo s t.length h.1.1 (le_trans h.1.2 he)]

/-- Claim C3: Selective Span Transform preservation and full coverage.  For
every text, every span list a two-armed pattern's scan can produce (in-order,
non-overlapping capture spans: `chainOk`), and every transform `f`,
`replace_all` equals the in-order concatenation of the Preserve regions'
original text with `f` applied to each captured region (`segs`), and with the
identity transform it returns the text unchanged: no character is altered,
dropped or duplicated. -/
theorem replace_all_spec (t : List Char) (caps : List (Nat × Nat))
    (f : List Char → List Char) (h : chainOk t.length 0 caps = true) :
    replace_all t caps f = segs t f 0 caps ∧
      replace_all t caps (fun x => x) = t := by
  constructor
  · rw [replace_all_eq_core, replaceCore_eq_segs]
  · rw [replace_all_eq_core, replaceCore_eq_segs, segs_id t caps 0 h]
    simp [pySlice]

/-- Witness for C3 at a concrete instance: text `"ab-cd"`, a single capture
span `(2,3)` (the minus sign), transform = prepend a backslash. -/
theorem replace_all_spec_witness :
    chainOk (strL "ab-cd").length 0 [(2, 3)] = true ∧
      (replace_all (strL "ab-cd") [(2, 3)] (fun x => bsC :: x)
          = segs (strL "ab-cd") (fun x => bsC :: x) 0 [(2, 3)] ∧
        replace_all (strL "ab-cd") [(2, 3)] (fun x => x) = strL "ab-cd") :=
  ⟨by decide, replace_all_spec (strL "ab-cd") [(2, 3)] (fun x => bsC :: x) (by decide)⟩

/-! ### The backtick parity fixer, `fix_uneven_backticks` (escape.py lines 135-161) -/

/-- `text.split('\n')` (line 144): split a text into its newline-separated
lines. -/
def splitNl : List Char → List (List Char)
  | [] => [[]]
  | c :: r => if c = nlC then [] :: splitNl r else
      match splitNl r with
      | [] => [[c]]
      | h :: t => (c :: h) :: t

/-- `"\n".join(lines)`. -/
def joinNl : List (List Char) → List Char
  | [] => []
  | [x] => x
  | x :: y :: r => x ++ nlC :: joinNl (y :: r)

/-- Python `str.strip()` on a line: drop leading and trailing whitespace. -/
def pyStrip (l : List Char) : List Char :=
  ((l.dropWhile isPySpace).reverse.dropWhile isPySpace).reverse

/-- A fence-delimiter line: `line.strip().startswith('```')` (line 149). -/
def isFenceLine (l : List Char) : Bool :=
  List.isPrefixOf (strL "```") (pyStrip l)

/-- `re.sub(r"\\`", '', line)` (line 156): remove every escaped-backtick
pair, leftmost first. -/
def removeEscTicks : List Char → List Char
  | [] => []
  | [c] => [c]
  | c :: c2 :: r2 =>
    if c = bsC ∧ c2 = bqC then removeEscTicks r2
    else c :: removeEscTicks (c2 :: r2)

/-- Count of raw backticks on a line. -/
def countTicks (l : List Char) : Nat := l.count bqC

/-- `replace_all(line, r"\\`|(`)", lambda x: '\\' + x)` (line 159): the
opaque arm is an already-escaped backtick (kept), the capture arm a bare
backtick (escaped). -/
def escTicksLine : List Char → List Char
  | [] => []
  | [c] => if c = bqC then [bsC, bqC] else [c]
  | c :: c2 :: r2 =>
    if c = bsC ∧ c2 = bqC then bsC :: bqC :: escTicksLine r2
    else if c = bqC then bsC :: bqC :: escTicksLine (c2 :: r2)
    else c :: escTicksLine (c2 :: r2)

/-- Every backtick on the line is preceded by a backslash. -/
def allTicksEscaped : List Char → Bool
  | [] => true
  | [c] => if c = bqC then false else true
  | c :: c2 :: r2 =>
    if c = bsC ∧ c2 = bqC then allTicksEscaped r2
    else if c = bqC then false
    else allTicksEscaped (c2 :: r2)

/-- Action of the loop body of `fix_uneven_backticks` on one line, given the
current fence state (lines 149-159): fence-delimiter lines and lines inside
a code block are kept; an outside line whose cleaned backtick count is odd
has all its backticks escaped. -/
def lineOut (inCode : Bool) (l : List Char) : List Char :=
  if isFenceLine l then l
  else if inCode then l
  else if countTicks (removeEscTicks l) % 2 = 1 then escTicksLine l
  else l

/-- Fence-state update of the loop (line 150). -/
def stepState (inCode : Bool) (l : List Char) : Bool :=
  if isFenceLine l then !inCode else inCode

/-- The whole loop of `fix_uneven_backticks` over the line list. -/
def fixLines : Bool → List (List Char) → List (List Char)
  | _, [] => []
  | b, l :: r => lineOut b l :: fixLines (stepState b l) r

/-- `fix_uneven_backticks` (escape.py lines 135-161). -/
def fix_uneven_backticks (t : List Char) : List Char :=
  joinNl (fixLines false (splitNl t))

/-- Fence state before line `i`, obtained by folding the toggling over the
first `i` lines. -/
def stateAt (ls : List (List Char)) (i : Nat) : Bool :=
  (ls.take i).foldl stepState false

theorem splitNl_ne_nil (l : List Char) : splitNl l ≠ [] := by
  induction l with
  | nil => simp [splitNl]
  | cons c r ih =>
    simp only [splitNl]
    split
    · simp
    · cases h : splitNl r with
      | nil => simp
      | cons a t => simp

theorem fixLines_length (ls : List (List Char)) :
    ∀ b, (fixLines b ls).length = ls.length := by
  induction ls with
  | nil => intro b; rfl
  | cons l r ih => intro b; simp [fixLines, ih]

theorem fixLines_get (ls : List (List Char)) :
    ∀ (b : Bool) (i : Nat) (h : i < ls.length)
      (h2 : i < (fixLines b ls).length),
      (fixLines b ls).get ⟨i, h2⟩
        = lineOut ((ls.take i).foldl stepState b) (ls.get ⟨i, h⟩) := by
  induction ls with
  | nil => intro b i h; exact absurd h (by simp)
  | cons l r ih =>
    intro b i h h2
    cases i with
    | zero => rfl
    | succ j =>
      have hj : j < r.length := by simpa using h
      have hj2 : j < (fixLines (stepState b l) r).length := by
        rw [fixLines_length]; exact hj
      have := ih (stepState b l) j hj hj2
      simpa [fixLines, List.take_succ_cons] using this

theorem noNl_splitNl (l : List Char) :
    ∀ x ∈ splitNl l, ∀ c ∈ x, c ≠ nlC := by
  induction l with
  | nil =>
    intro x hx
    simp [splitNl] at hx
    subst hx; intro c hc; simp at hc
  | cons a r ih =>
    intro x hx
    simp only [splitNl] at hx
    by_cases ha : a = nlC
    · rw [if_pos ha] at hx
      rcases List.mem_cons.mp hx with h | h
      · subst h; intro c hc; simp at hc
      · exact ih x h
    · rw [if_neg ha] at hx
      rcases hsp : splitNl r with _ | ⟨h0, t0⟩
      · exact absurd hsp (splitNl_ne_nil r)
      · rw [hsp] at hx
        rcases List.mem_cons.mp hx with h | h
        · subst h
          intro c hc
          rcases List.mem_cons.mp hc with h' | h'
          · subst h'; exact ha
          · exact ih h0 (by rw [hsp]; exact List.mem_cons_self h0 t0) c h'
        · exact ih x (by rw [hsp]; exact List.mem_cons_of_mem h0 h)
theorem bs_ne_bq : ¬ (bsC = bqC) := by decide

theorem bq_ne_bs : ¬ (bqC = bsC) := by decide

theorem escTicksLine_ne_nil (c : Char) (r : List Char) :
    escTicksLine (c :: r) ≠ [] := by
  cases r with
  | nil =>
    simp only [escTicksLine]
    split <;> simp
  | cons c2 r2 =>
    simp only [escTicksLine]
    split
    · simp
    · split <;> simp

theorem escTicksLine_head (l : List Char) (d : Char) (rest : List Char)
    (h : escTicksLine l = d :: rest) : ¬ d = bqC := by
  match l with
  | [] => simp [escTicksLine] at h
  | [c] =>
    simp only [escTicksLine] at h
    split at h
    next hc => injection h with h1 _; rw [← h1]; exact bs_ne_bq
    next hc => injection h with h1 _; rw [← h1]; exact hc
  | c :: c2 :: r2 =>
    simp only [escTicksLine] at h
    split at h
    next hp => injection h with h1 _; rw [← h1]; exact bs_ne_bq
    next hp =>
      split at h
      next hc => injection h with h1 _; rw [← h1]; exact bs_ne_bq
      next hc => injection h with h1 _; rw [← h1]; exact hc

theorem allTicksEscaped_escTicksLine (l : List Char) :
    allTicksEscaped (escTicksLine l) = true := by
  induction l using escTicksLine.induct with
  | case1 => rfl
  | case2 => decide
  | case3 c h => simp [escTicksLine, h, allTicksEscaped]
  | case4 c c2 r2 h ih =>
    obtain ⟨h1, h2⟩ := h
    subst h1; subst h2
    have he : escTicksLine (bsC :: bqC :: r2) = bsC :: bqC :: escTicksLine r2 := by
      simp [escTicksLine]
    rw [he]
    simpa [allTicksEscaped] using ih
  | case5 c2 r2 h ih =>
    have he : escTicksLine (bqC :: c2 :: r2)
        = bsC :: bqC :: escTicksLine (c2 :: r2) := by
      simp [escTicksLine, h]
    rw [he]
    simpa [allTicksEscaped] using ih
  | case6 c c2 r2 h h2 ih =>
    have he : escTicksLine (c :: c2 :: r2) = c :: escTicksLine (c2 :: r2) := by
      simp [escTicksLine, h, h2]
    rw [he]
    obtain ⟨d, rest, hx⟩ : ∃ d rest, escTicksLine (c2 :: r2) = d :: rest := by
      cases hX : escTicksLine (c2 :: r2) with
      | nil => exact absurd hX (escTicksLine_ne_nil c2 r2)
      | cons d rest => exact ⟨d, rest, rfl⟩
    have hd : ¬ d = bqC := escTicksLine_head _ d rest hx
    rw [hx]
    have hstep : allTicksEscaped (c :: d :: rest) = allTicksEscaped (d :: rest) := by
      by_cases hcb : c = bsC
      · simp [allTicksEscaped, hcb, hd, bs_ne_bq]
      · simp [allTicksEscaped, hcb, h2]
    rw [hstep, ← hx, ih]

theorem removeEsc_no_bq (l : List Char) (h : allTicksEscaped l = true) :
    bqC ∉ removeEscTicks l := by
  induction l using allTicksEscaped.induct with
  | case1 => simp [removeEscTicks]
  | case2 => simp [allTicksEscaped] at h
  | case3 c hc =>
    simp [removeEscTicks]
    intro hcon
    exact hc hcon.symm
  | case4 c c2 r2 hp ih =>
    obtain ⟨h1, h2⟩ := hp
    subst h1; subst h2
    have h' : allTicksEscaped r2 = true := by simpa [allTicksEscaped] using h
    have hr : removeEscTicks (bsC :: bqC :: r2) = removeEscTicks r2 := by
      simp [removeEscTicks]
    rw [hr]
    exact ih h'
  | case5 c2 r2 hp =>
    have hfalse : allTicksEscaped (bqC :: c2 :: r2) = false := by
      simp [allTicksEscaped, hp]
    rw [hfalse] at h
    exact absurd h (by decide)
  | case6 c c2 r2 hp hc ih =>
    have hh : allTicksEscaped (c :: c2 :: r2) = allTicksEscaped (c2 :: r2) := by
      simp [allTicksEscaped, hp, hc]
    rw [hh] at h
    have hr : removeEscTicks (c :: c2 :: r2) = c :: removeEscTicks (c2 :: r2) := by
      simp [removeEscTicks, hp]
    rw [hr]
    intro hmem
    rcases List.mem_cons.mp hmem with h' | h'
    · exact hc h'.symm
    · exact ih h h'

theorem countTicks_zero_of_allEscaped (l : List Char)
    (h : allTicksEscaped l = true) : countTicks (removeEscTicks l) = 0 :=
  List.count_eq_zero.mpr (removeEsc_no_bq l h)

theorem escTicksLine_chars (l : List Char) :
    ∀ c ∈ escTicksLine l, c = bsC ∨ c ∈ l := by
  induction l using escTicksLine.induct with
  | case1 => simp [escTicksLine]
  | case2 => decide
  | case3 c h => simp [escTicksLine, h]
  | case4 c c2 r2 hp ih =>
    obtain ⟨h1, h2⟩ := hp
    subst h1; subst h2
    intro c hc
    have he : escTicksLine (bsC :: bqC :: r2) = bsC :: bqC :: escTicksLine r2 := by
      simp [escTicksLine]
    rw [he] at hc
    rcases List.mem_cons.mp hc with h' | h'
    · exact Or.inl h'
    · rcases List.mem_cons.mp h' with h'' | h''
      · subst h''; simp
      · rcases ih c h'' with h3 | h3
        · exact Or.inl h3
        · simp [h3]
  | case5 c2 r2 hp ih =>
    intro c hc
    have he : escTicksLine (bqC :: c2 :: r2)
        = bsC :: bqC :: escTicksLine (c2 :: r2) := by
      simp [escTicksLine, hp]
    rw [he] at hc
    rcases List.mem_cons.mp hc with h' | h'
    · exact Or.inl h'
    · rcases List.mem_cons.mp h' with h'' | h''
      · subst h''; simp
      · rcases ih c h'' with h3 | h3
        · exact Or.inl h3
        · simp [List.mem_cons.mp h3]
  | case6 c c2 r2 hp hc2 ih =>
    intro c' hc'
    have he : escTicksLine (c :: c2 :: r2) = c :: escTicksLine (c2 :: r2) := by
      simp [escTicksLine, hp, hc2]
    rw [he] at hc'
    rcases List.mem_cons.mp hc' with h' | h'
    · subst h'; simp
    · rcases ih c' h' with h3 | h3
      · exact Or.inl h3
      · simp [List.mem_cons.mp h3]

theorem splitNl_single (l : List Char) (h : ∀ c ∈ l, ¬ c = nlC) :
    splitNl l = [l] := by
  induction l with
  | nil => rfl
  | cons c r ih =>
    have hc : ¬ c = nlC := h c (List.mem_cons_self c r)
    have hr : splitNl r = [r] := ih (fun d hd => h d (List.mem_cons_of_mem c hd))
    simp [splitNl, hc, hr]

theorem splitNl_append_nl (x rest : List Char) (h : ∀ c ∈ x, ¬ c = nlC) :
    splitNl (x ++ nlC :: rest) = x :: splitNl rest := by
  induction x with
  | nil => simp [splitNl]
  | cons c x' ih =>
    have hc : ¬ c = nlC := h c (List.mem_cons_self c x')
    have hx : splitNl (x' ++ nlC :: rest) = x' :: splitNl rest :=
      ih (fun d hd => h d (List.mem_cons_of_mem c hd))
    simp [splitNl, hc, hx]

theorem splitNl_joinNl (ls : List (List Char)) (hne : ls ≠ [])
    (h : ∀ x ∈ ls, ∀ c ∈ x, ¬ c = nlC) : splitNl (joinNl ls) = ls := by
  induction ls with
  | nil => exact absurd rfl hne
  | cons x r ih =>
    cases r with
    | nil =>
      simp only [joinNl]
      exact splitNl_single x (h x (List.mem_cons_self x []))
    | cons y r2 =>
      have hj : joinNl (x :: y :: r2) = x ++ nlC :: joinNl (y :: r2) := rfl
      rw [hj, splitNl_append_nl x _ (h x (List.mem_cons_self x (y :: r2)))]
      rw [ih (by simp) (fun z hz => h z (List.mem_cons_of_mem x hz))]

theorem lineOut_no_nl (b : Bool) (l : List Char) (h : ∀ c ∈ l, ¬ c = nlC) :
    ∀ c ∈ lineOut b l, ¬ c = nlC := by
  intro c hc
  unfold lineOut at hc
  split at hc
  · exact h c hc
  · split at hc
    · exact h c hc
    · split at hc
      · rcases escTicksLine_chars l c hc with h' | h'
        · rw [h']; decide
        · exact h c h'
      · exact h c hc

theorem fixLines_no_nl (ls : List (List Char))
    (h : ∀ x ∈ ls, ∀ c ∈ x, ¬ c = nlC) :
    ∀ b, ∀ x ∈ fixLines b ls, ∀ c ∈ x, ¬ c = nlC := by
  induction ls with
  | nil => intro b x hx; simp [fixLines] at hx
  | cons l r ih =>
    intro b x hx
    simp only [fixLines] at hx
    rcases List.mem_cons.mp hx with h' | h'
    · subst h'
      exact lineOut_no_nl b l (h l (List.mem_cons_self l r))
    · exact ih (fun z hz => h z (List.mem_cons_of_mem l hz)) (stepState b l) x h'

theorem splitNl_fix (t : List Char) :
    splitNl (fix_uneven_backticks t) = fixLines false (splitNl t) := by
  unfold fix_uneven_backticks
  apply splitNl_joinNl
  · intro hfalse
    have h1 : (fixLines false (splitNl t)).length = (splitNl t).length :=
      fixLines_length (splitNl t) false
    rw [hfalse] at h1
    have h2 := splitNl_ne_nil t
    cases hsp : splitNl t with
    | nil => exact h2 hsp
    | cons a r => rw [hsp] at h1; simp at h1
  · exact fixLines_no_nl (splitNl t) (noNl_splitNl t) false

/-- Claim C9: implicit line-structure frame of the parity fixer.  The output
of `fix_uneven_backticks` has exactly as many newline-separated lines as the
input, and every fence-delimiter line, every line inside a fence region, and
every outside-fence line with an even count of unescaped backticks is
returned character-for-character unchanged. -/
theorem fix_uneven_line_structure (t : List Char) (i : Nat)
    (h1 : i < (splitNl t).length)
    (h2 : i < (splitNl (fix_uneven_backticks t)).length) :
    (splitNl (fix_uneven_backticks t)).length = (splitNl t).length ∧
    ((isFenceLine ((splitNl t).get ⟨i, h1⟩) = true ∨
      stateAt (splitNl t) i = true ∨
      countTicks (removeEscTicks ((splitNl t).get ⟨i, h1⟩)) % 2 = 0) →
      (splitNl (fix_uneven_backticks t)).get ⟨i, h2⟩ = (splitNl t).get ⟨i, h1⟩) := by
  have hsf := splitNl_fix t
  have h2' : i < (fixLines false (splitNl t)).length := by rw [← hsf]; exact h2
  have get_congr : ∀ (A B : List (List Char)), A = B → ∀ (hA : i < A.length)
      (hB : i < B.length), A.get ⟨i, hA⟩ = B.get ⟨i, hB⟩ := by
    intro A B hAB hA hB
    subst hAB
    rfl
  have hget : (splitNl (fix_uneven_backticks t)).get ⟨i, h2⟩
      = (fixLines false (splitNl t)).get ⟨i, h2'⟩ :=
    get_congr _ _ hsf h2 h2'
  constructor
  · rw [hsf]; exact fixLines_length (splitNl t) false
  · intro hcases
    rw [hget, fixLines_get (splitNl t) false i h1 h2']
    unfold lineOut
    rcases hcases with hf | hs | hev
    · rw [if_pos hf]
    · rw [stateAt] at hs
      by_cases hf : isFenceLine ((splitNl t).get ⟨i, h1⟩) = true
      · rw [if_pos hf]
      · rw [if_neg hf, if_pos hs]
    · by_cases hf : isFenceLine ((splitNl t).get ⟨i, h1⟩) = true
      · rw [if_pos hf]
      · rw [if_neg hf]
        by_cases hs : (List.take i (splitNl t)).foldl stepState false = true
        · rw [if_pos hs]
        · rw [if_neg hs, if_neg (by omega)]

/-- Witness for C9 on the concrete input `"a\n```\nx`y\n```"`, line 0. -/
theorem fix_uneven_line_structure_witness :
    (0 < (splitNl (strL "a\n```\nx`y\n```")).length ∧
      0 < (splitNl (fix_uneven_backticks (strL "a\n```\nx`y\n```"))).length) ∧
    ((splitNl (fix_uneven_backticks (strL "a\n```\nx`y\n```"))).length
        = (splitNl (strL "a\n```\nx`y\n```")).length ∧
      ((isFenceLine ((splitNl (strL "a\n```\nx`y\n```")).get ⟨0, by decide⟩) = true ∨
        stateAt (splitNl (strL "a\n```\nx`y\n```")) 0 = true ∨
        countTicks (removeEscTicks
          ((splitNl (strL "a\n```\nx`y\n```")).get ⟨0, by decide⟩)) % 2 = 0) →
        (splitNl (fix_uneven_backticks (strL "a\n```\nx`y\n```"))).get ⟨0, by decide⟩
          = (splitNl (strL "a\n```\nx`y\n```")).get ⟨0, by decide⟩)) :=
  ⟨⟨by decide, by decide⟩,
    fix_uneven_line_structure (strL "a\n```\nx`y\n```") 0 (by decide) (by decide)⟩

/-! ### The `escape` pipeline (escape.py lines 163-282)

Each `re.sub`/`replace_all` pass is hand-compiled into a scanner that
implements that pattern's matching semantics: leftmost scan advancing one
character on failure, lazy groups closed at the earliest possible position,
greedy counted repetitions tried longest first, alternatives tried in
pattern order.  Scanners take a fuel argument (always called with at least
the text length, and every step consumes at least one input character, so
the fuel never runs out). -/

/-- Literal-string substitution: `re.sub` for a pattern with no
metacharacters (leftmost, non-overlapping). -/
def subGo : Nat → List Char → List Char → List Char → List Char
  | 0, _, _, l => l
  | fuel + 1, pat, rep, l =>
    if pat ≠ [] ∧ List.isPrefixOf pat l then
      rep ++ subGo fuel pat rep (l.drop pat.length)
    else
      match l with
      | [] => []
      | c :: r => c :: subGo fuel pat rep r

/-- Wrapper choosing sufficient fuel. -/
def sub (pat rep : String) (l : List Char) : List Char :=
  subGo l.length (strL pat) (strL rep) l

/-- Close a lazy group that may not span a newline (`(.*?)` followed by a
delimiter): return the shortest interior (possibly empty) such that the
delimiter follows, or fail at a newline or the end. -/
def closeNoNl (d : List Char) (acc : List Char) : List Char → Option (List Char × List Char)
  | [] => if List.isPrefixOf d [] then some (acc, []) else none
  | c :: r =>
    if List.isPrefixOf d (c :: r) then some (acc, (c :: r).drop d.length)
    else if c = nlC then none
    else closeNoNl d (acc ++ [c]) r

/-- Close a lazy group of arbitrary characters, at least one (`[\D\d\s]+?`
followed by a delimiter). -/
def closeAny1 (d : List Char) (acc : List Char) : List Char → Option (List Char × List Char)
  | [] => none
  | c :: r =>
    if acc ≠ [] ∧ List.isPrefixOf d (c :: r) then some (acc, (c :: r).drop d.length)
    else closeAny1 d (acc ++ [c]) r

/-- Close a lazy group of arbitrary characters, possibly empty
(`[\D\d\s]*?` followed by a delimiter). -/
def closeAny0 (d : List Char) (acc : List Char) : List Char → Option (List Char × List Char)
  | [] => none
  | c :: r =>
    if List.isPrefixOf d (c :: r) then some (acc, (c :: r).drop d.length)
    else closeAny0 d (acc ++ [c]) r

/-- Line 197: `re.sub(r"\*{2}(.*?)\*{2}", '@@@\1@@@', text)`. -/
def boldSaveGo : Nat → List Char → List Char
  | 0, l => l
  | _ + 1, [] => []
  | fuel + 1, c :: r =>
    if List.isPrefixOf (strL "**") (c :: r) then
      match closeNoNl (strL "**") [] ((c :: r).drop 2) with
      | some (x, rest) => strL "@@@" ++ x ++ strL "@@@" ++ boldSaveGo fuel rest
      | none => c :: boldSaveGo fuel r
    else c :: boldSaveGo fuel r

/-- Line 206: `re.sub(r"\@{3}(.*?)\@{3}", '*\1*', text)`. -/
def boldRestoreGo : Nat → List Char → List Char
  | 0, l => l
  | _ + 1, [] => []
  | fuel + 1, c :: r =>
    if List.isPrefixOf (strL "@@@") (c :: r) then
      match closeNoNl (strL "@@@") [] ((c :: r).drop 3) with
      | some (x, rest) => Char.ofNat 42 :: x ++ Char.ofNat 42 :: boldRestoreGo fuel rest
      | none => c :: boldRestoreGo fuel r
    else c :: boldRestoreGo fuel r

/-- Line 200: `re.sub(r"\n{1,2}\*\s", '\n\n• ', text)`: the greedy
`\n{1,2}` takes a second newline when present; since `*` is not a newline
the one-newline fallback can only fire when there is a single newline. -/
def starSp : List Char → Option (List Char)
  | c :: c2 :: r => if c = Char.ofNat 42 ∧ isPySpace c2 then some r else none
  | _ => none

def bulletTry (r : List Char) : Option (List Char) :=
  match r with
  | c :: r2 => if c = nlC then starSp r2 else starSp r
  | [] => none

def bulletStarGo : Nat → List Char → List Char
  | 0, l => l
  | _ + 1, [] => []
  | fuel + 1, c :: r =>
    if c = nlC then
      match bulletTry r with
      | some r3 => strL "\n\n• " ++ bulletStarGo fuel r3
      | none => c :: bulletStarGo fuel r
    else c :: bulletStarGo fuel r

/-- Matches `](`-closed lazy URL part `(.*?)\)` : shortest prefix up to a
closing parenthesis, not crossing a newline. -/
def findUrl (acc : List Char) : List Char → Option (List Char × List Char)
  | [] => none
  | c :: r =>
    if c = ')' then some (acc, r)
    else if c = nlC then none
    else findUrl (acc ++ [c]) r

/-- Lazy label part of line 209's `\!?\[(.*?)\]\((.*?)\)`: grow the label one
character at a time; at each `](` try the URL part, on failure keep
growing (regex backtracking), fail at a newline. -/
def findLabel (acc : List Char) : List Char → Option (List Char × List Char × List Char)
  | [] => none
  | b :: r =>
    if b = nlC then none
    else if b = ']' then
      match r with
      | p :: r2 =>
        if p = '(' then
          match findUrl [] r2 with
          | some (u, r3) => some (acc, u, r3)
          | none => findLabel (acc ++ [b]) r
        else findLabel (acc ++ [b]) r
      | [] => none
    else findLabel (acc ++ [b]) r

/-- Line 209: `re.sub(r"\!?\[(.*?)\]\((.*?)\)", '@@@\1@@@^^^\2^^^', text)`.
A failing `![` start falls back to retrying at the `[` (the optional `\!?`
backtracks to empty, which fails at the `!` itself). -/
def linkSaveGo : Nat → List Char → List Char
  | 0, l => l
  | _ + 1, [] => []
  | fuel + 1, c :: r =>
    if c = '!' then
      match r with
      | p :: r2 =>
        if p = '[' then
          match findLabel [] r2 with
          | some (a, u, rest) =>
            strL "@@@" ++ a ++ strL "@@@^^^" ++ u ++ strL "^^^" ++ linkSaveGo fuel rest
          | none => c :: linkSaveGo fuel r
        else c :: linkSaveGo fuel r
      | [] => [c]
    else if c = '[' then
      match findLabel [] r with
      | some (a, u, rest) =>
        strL "@@@" ++ a ++ strL "@@@^^^" ++ u ++ strL "^^^" ++ linkSaveGo fuel rest
      | none => c :: linkSaveGo fuel r
    else c :: linkSaveGo fuel r

/-- Lazy `(.*?)\^{3}` of line 224: shortest prefix up to `^^^`, not
crossing a newline. -/
def findHats (acc : List Char) : List Char → Option (List Char × List Char)
  | [] => none
  | c :: r =>
    if c = hatC ∧ List.isPrefixOf (strL "^^") r then some (acc, r.drop 2)
    else if c = nlC then none
    else findHats (acc ++ [c]) r

/-- Lazy first group of line 224's `\@{3}(.*?)\@{3}\^{3}(.*?)\^{3}`: grow
until a `@@@` immediately followed by `^^^` whose second group also closes;
on failure keep growing (regex backtracking), fail at a newline. -/
def findInner1 (acc : List Char) : List Char → Option (List Char × List Char × List Char)
  | [] => none
  | c :: r =>
    if c = atC ∧ List.isPrefixOf (strL "@@") r ∧ List.isPrefixOf (strL "^^^") (r.drop 2) then
      match findHats [] (r.drop 5) with
      | some (u, r3) => some (acc, u, r3)
      | none => findInner1 (acc ++ [c]) r
    else if c = nlC then none
    else findInner1 (acc ++ [c]) r

/-- Line 224: `re.sub(r"\@{3}(.*?)\@{3}\^{3}(.*?)\^{3}", '[\1](\2)', text)`. -/
def linkRestoreGo : Nat → List Char → List Char
  | 0, l => l
  | _ + 1, [] => []
  | fuel + 1, c :: r =>
    if List.isPrefixOf (strL "@@@") (c :: r) then
      match findInner1 [] ((c :: r).drop 3) with
      | some (a, u, rest) =>
        '[' :: a ++ strL "](" ++ u ++ ')' :: linkRestoreGo fuel rest
      | none => c :: linkRestoreGo fuel r
    else c :: linkRestoreGo fuel r

/-- The fenced-code alternative `` ```[\D\d\s]+?``` `` appearing as an opaque
arm in lines 231, 237, 243 and 252: lazy non-empty interior of arbitrary
characters. -/
def fenceArm (l : List Char) : Option (List Char × List Char) :=
  if List.isPrefixOf (strL "```") l then
    match closeAny1 (strL "```") [] (l.drop 3) with
    | some (x, rest) => some (strL "```" ++ x ++ strL "```", rest)
    | none => none
  else none

/-- The inline-code alternative `` `[\D\d\s]*?` `` (opaque arm in lines 237
and 252): lazy possibly-empty interior of arbitrary characters. -/
def inlineArm (l : List Char) : Option (List Char × List Char) :=
  match l with
  | c :: r =>
    if c = bqC then
      match closeAny0 [bqC] [] r with
      | some (x, rest) => some (c :: (x ++ [bqC]), rest)
      | none => none
    else none
  | [] => none

/-- The dash-list alternative `\n[\s]*-\s` (opaque arm in lines 237 and
252): a newline, the maximal whitespace run, a dash and one whitespace
character (a shorter whitespace run cannot be followed by `-`). -/
def dashArm (l : List Char) : Option (List Char × List Char) :=
  match l with
  | c :: r =>
    if c = nlC then
      match r.dropWhile isPySpace with
      | d :: sp :: r2 =>
        if d = '-' ∧ isPySpace sp then
          some (c :: (r.takeWhile isPySpace ++ [d, sp]), r2)
        else none
      | _ => none
    else none
  | [] => none

/-- Line 237: `replace_all(text, r"(\+)|\n[\s]*-\s|```…```|`…`",
escape_special_char)`: only the `+` captures are transformed (prefixed with
a backslash), the other three arms are opaque. -/
def plusListGo : Nat → List Char → List Char
  | 0, l => l
  | _ + 1, [] => []
  | fuel + 1, c :: r =>
    if c = '+' then strL "\\+" ++ plusListGo fuel r
    else
      match dashArm (c :: r) with
      | some (m, rest) => m ++ plusListGo fuel rest
      | none =>
        match fenceArm (c :: r) with
        | some (m, rest) => m ++ plusListGo fuel rest
        | none =>
          match inlineArm (c :: r) with
          | some (m, rest) => m ++ plusListGo fuel rest
          | none => c :: plusListGo fuel r

/-- Line 252: `replace_all(text, r"(-)|\n[\s]*-\s|```…```|`…`",
escape_minus)`: the `-` capture arm comes first. -/
def minusEscapeGo : Nat → List Char → List Char
  | 0, l => l
  | _ + 1, [] => []
  | fuel + 1, c :: r =>
    if c = '-' then strL "\\-" ++ minusEscapeGo fuel r
    else
      match dashArm (c :: r) with
      | some (m, rest) => m ++ minusEscapeGo fuel rest
      | none =>
        match fenceArm (c :: r) with
        | some (m, rest) => m ++ minusEscapeGo fuel rest
        | none =>
          match inlineArm (c :: r) with
          | some (m, rest) => m ++ minusEscapeGo fuel rest
          | none => c :: minusEscapeGo fuel r

/-- Line 243: `replace_all(text, r"```[\D\d\s]+?```|(-)", escape_temp_minus)`:
the fence arm is opaque and comes first; each captured `-` becomes the
sentinel `@+>@` (the transform ignores its argument). -/
def minusTempGo : Nat → List Char → List Char
  | 0, l => l
  | _ + 1, [] => []
  | fuel + 1, c :: r =>
    match fenceArm (c :: r) with
    | some (m, rest) => m ++ minusTempGo fuel rest
    | none =>
      if c = '-' then strL "@+>@" ++ minusTempGo fuel r
      else c :: minusTempGo fuel r

/-- The `\.` and `\s` tail of line 240's capture. -/
def dotSp : List Char → Option (Char × Char × List Char)
  | dot :: sp :: r => if dot = '.' ∧ isPySpace sp then some (dot, sp, r) else none
  | _ => none

/-- Capture `(\s*\d{1,2}\.\s)` of line 240 at the given position: maximal
whitespace run, one or two digits (greedy; three or more digits fail since
the backtracked second digit is not a dot), a dot, one whitespace. -/
def parseNum (l : List Char) : Option (List Char × List Char) :=
  let w := l.takeWhile isPySpace
  match l.dropWhile isPySpace with
  | d1 :: rest2 =>
    if d1.isDigit then
      match rest2 with
      | d2 :: rest3 =>
        if d2.isDigit then
          match dotSp rest3 with
          | some (dot, sp, r4) => some (w ++ [d1, d2, dot, sp], r4)
          | none => none
        else
          match dotSp rest2 with
          | some (dot, sp, r3) => some (w ++ [d1, dot, sp], r3)
          | none => none
      | [] => none
    else none
  | [] => none

/-- `\n{1,2}` followed by the numbered-list capture: try the two-newline
(greedy) form first; the one-newline fallback starts the capture's `\s*`
at the second newline. -/
def numTry (r : List Char) : Option (List Char × List Char) :=
  match r with
  | c2 :: r2 =>
    if c2 = nlC then
      match parseNum r2 with
      | some res => some res
      | none => parseNum r
    else parseNum r
  | [] => none

/-- Line 240: `re.sub(r"\n{1,2}(\s*\d{1,2}\.\s)", '\n\n\1', text)`. -/
def numberedGo : Nat → List Char → List Char
  | 0, l => l
  | _ + 1, [] => []
  | fuel + 1, c :: r =>
    if c = nlC then
      match numTry r with
      | some (cap, rest) => nlC :: nlC :: cap ++ numberedGo fuel rest
      | none => c :: numberedGo fuel r
    else c :: numberedGo fuel r

/-- Capture `(\s*)` of line 248 followed by `-\s`: maximal whitespace run,
a dash, one whitespace. -/
def parseDash (l : List Char) : Option (List Char × List Char) :=
  let w := l.takeWhile isPySpace
  match l.dropWhile isPySpace with
  | d :: sp :: r2 => if d = '-' ∧ isPySpace sp then some (w, r2) else none
  | _ => none

def dashTry (r : List Char) : Option (List Char × List Char) :=
  match r with
  | c2 :: r2 =>
    if c2 = nlC then
      match parseDash r2 with
      | some res => some res
      | none => parseDash r
    else parseDash r
  | [] => none

/-- Line 248: `re.sub(r"\n{1,2}(\s*)-\s", '\n\n\1• ', text)`. -/
def dashBulletGo : Nat → List Char → List Char
  | 0, l => l
  | _ + 1, [] => []
  | fuel + 1, c :: r =>
    if c = nlC then
      match dashTry r with
      | some (w, rest) => nlC :: nlC :: w ++ strL "• " ++ dashBulletGo fuel rest
      | none => c :: dashBulletGo fuel r
    else c :: dashBulletGo fuel r

/-- Line 255: `re.sub(r"```([\D\d\s]+?)```", '@@@\1@@@', text)`. -/
def codeSaveGo : Nat → List Char → List Char
  | 0, l => l
  | _ + 1, [] => []
  | fuel + 1, c :: r =>
    if List.isPrefixOf (strL "```") (c :: r) then
      match closeAny1 (strL "```") [] ((c :: r).drop 3) with
      | some (x, rest) => strL "@@@" ++ x ++ strL "@@@" ++ codeSaveGo fuel rest
      | none => c :: codeSaveGo fuel r
    else c :: codeSaveGo fuel r

/-- Line 269: `re.sub(r"\@{3}([\D\d\s]+?)\@{3}", '```\1```', text)`. -/
def codeRestoreGo : Nat → List Char → List Char
  | 0, l => l
  | _ + 1, [] => []
  | fuel + 1, c :: r =>
    if List.isPrefixOf (strL "@@@") (c :: r) then
      match closeAny1 (strL "@@@") [] ((c :: r).drop 3) with
      | some (x, rest) => strL "```" ++ x ++ strL "```" ++ codeRestoreGo fuel rest
      | none => c :: codeRestoreGo fuel r
    else c :: codeRestoreGo fuel r

/-- Line 258: `replace_all(text, r"\@\@\@[\s\d\D]+?\@\@\@|(`)",
escape_backquote_in_code)`: sentinel-protected zones are opaque, every
backtick outside them becomes the sentinel `@->@`. -/
def tickInCodeGo : Nat → List Char → List Char
  | 0, l => l
  | _ + 1, [] => []
  | fuel + 1, c :: r =>
    if List.isPrefixOf (strL "@@@") (c :: r) then
      match closeAny1 (strL "@@@") [] ((c :: r).drop 3) with
      | some (x, rest) => strL "@@@" ++ x ++ strL "@@@" ++ tickInCodeGo fuel rest
      | none => c :: tickInCodeGo fuel r
    else if c = bqC then strL "@->@" ++ tickInCodeGo fuel r
    else c :: tickInCodeGo fuel r

/-- Line 266: `replace_all(text, r"(``)", escape_backquote)`: every pair of
adjacent backticks becomes an escaped pair. -/
def doubleTickGo : Nat → List Char → List Char
  | 0, l => l
  | _ + 1, [] => []
  | fuel + 1, c :: r =>
    if List.isPrefixOf (strL "``") (c :: r) then
      strL "\\`\\`" ++ doubleTickGo fuel ((c :: r).drop 2)
    else c :: doubleTickGo fuel r

/-- Python `str.split()`: split on whitespace runs, discarding empties. -/
def pySplitGo : Nat → List Char → List (List Char)
  | 0, _ => []
  | fuel + 1, l =>
    match l.dropWhile isPySpace with
    | [] => []
    | c :: r =>
      (c :: r).takeWhile (fun d => !(isPySpace d))
        :: pySplitGo fuel ((c :: r).dropWhile (fun d => !(isPySpace d)))

def pySplitWs (l : List Char) : List (List Char) := pySplitGo (l.length + 1) l

/-- `" ".join(words)`. -/
def joinSpace : List (List Char) → List Char
  | [] => []
  | [w] => w
  | w :: y :: r => w ++ ' ' :: joinSpace (y :: r)

/-- `escapeshape` (escape.py lines 62-78): turn a captured header into a
`▎*…*` heading followed by a blank line. -/
def escapeshape (t : List Char) : List Char :=
  if pyStrip t = [] then []
  else
    match pySplitWs t with
    | [] => t
    | w :: ws =>
      if List.isPrefixOf (strL "#") w then strL "▎*" ++ joinSpace ws ++ strL "*\n\n"
      else t

/-- The header arm `(^#+\s.+?\n+)` of line 231 tried at a line start: a
maximal run of hashes (a shorter run would have to be followed by a `#`,
which is not whitespace), one whitespace character, a non-empty lazy
content stretch up to the next newline, then the greedy run of newlines. -/
def headerArm (l : List Char) : Option (List Char × List Char) :=
  match l with
  | c :: _ =>
    if c = '#' then
      let hs := l.takeWhile (fun d => d == '#')
      match l.dropWhile (fun d => d == '#') with
      | sp :: r2 =>
        if isPySpace sp then
          let content := r2.takeWhile (fun d => !(d == nlC))
          let r3 := r2.dropWhile (fun d => !(d == nlC))
          let nls := r3.takeWhile (fun d => d == nlC)
          let r4 := r3.dropWhile (fun d => d == nlC)
          if content = [] then none
          else if nls = [] then none
          else some (hs ++ sp :: content ++ nls, r4)
        else none
      | [] => none
    else none
  | [] => none

/-- Line 231: `replace_all(text, r"(^#+\s.+?\n+)|```[\D\d\s]+?```",
escapeshape)` with `re.MULTILINE`: the header arm (transformed) is tried
at line starts, the fence arm is opaque. -/
def headerGo : Nat → Bool → List Char → List Char
  | 0, _, l => l
  | _ + 1, _, [] => []
  | fuel + 1, bol, c :: r =>
    match (if bol then headerArm (c :: r) else none) with
    | some (cap, rest) => escapeshape cap ++ headerGo fuel true rest
    | none =>
      match fenceArm (c :: r) with
      | some (m, rest) => m ++ headerGo fuel false rest
      | none => c :: headerGo fuel (c == nlC) r

/-- One-argument wrappers for the scanner passes, choosing the fuel from the
input (always sufficient: every scanner step consumes at least one input
character). -/
def boldSavePass (l : List Char) : List Char := boldSaveGo l.length l

def bulletStarPass (l : List Char) : List Char := bulletStarGo l.length l

def boldRestorePass (l : List Char) : List Char := boldRestoreGo l.length l

def linkSavePass (l : List Char) : List Char := linkSaveGo l.length l

def linkRestorePass (l : List Char) : List Char := linkRestoreGo l.length l

def headerPass (l : List Char) : List Char := headerGo (l.length + 1) true l

def plusListPass (l : List Char) : List Char := plusListGo l.length l

def numberedPass (l : List Char) : List Char := numberedGo l.length l

def minusTempPass (l : List Char) : List Char := minusTempGo l.length l

def dashBulletPass (l : List Char) : List Char := dashBulletGo l.length l

def minusEscapePass (l : List Char) : List Char := minusEscapeGo l.length l

def codeSavePass (l : List Char) : List Char := codeSaveGo l.length l

def tickInCodePass (l : List Char) : List Char := tickInCodeGo l.length l

def doubleTickPass (l : List Char) : List Char := doubleTickGo l.length l

def codeRestorePass (l : List Char) : List Char := codeRestoreGo l.length l

/-- All passes of `escape` (escape.py lines 163-277) before the final
parity fixer, in source order. -/
def escapeCore (text : List Char) (flag : Bool) : List Char :=
  let t := sub "\\[" "@->@" text
  let t := sub "\\]" "@<-@" t
  let t := sub "\\(" "@-->@" t
  let t := sub "\\)" "@<--@" t
  let t := if flag then sub "\\\\" "@@@" t else t
  let t := sub "\\`" "@<@" t
  let t := sub "\\" "\\\\" t
  let t := if flag then sub "@@@" "\\\\" t else t
  let t := sub "_" "\\_" t
  let t := boldSavePass t
  let t := bulletStarPass t
  let t := sub "*" "\\*" t
  let t := boldRestorePass t
  let t := linkSavePass t
  let t := sub "[" "\\[" t
  let t := sub "]" "\\]" t
  let t := sub "(" "\\(" t
  let t := sub ")" "\\)" t
  let t := sub "@->@" "\\[" t
  let t := sub "@<-@" "\\]" t
  let t := sub "@-->@" "\\(" t
  let t := sub "@<--@" "\\)" t
  let t := linkRestorePass t
  let t := sub "~" "\\~" t
  let t := sub ">" "\\>" t
  let t := headerPass t
  let t := sub "#" "\\#" t
  let t := plusListPass t
  let t := numberedPass t
  let t := minusTempPass t
  let t := sub "-" "@<+@" t
  let t := sub "@+>@" "-" t
  let t := dashBulletPass t
  let t := sub "@<+@" "\\-" t
  let t := minusEscapePass t
  let t := codeSavePass t
  let t := tickInCodePass t
  let t := sub "`" "\\`" t
  let t := sub "@<@" "\\`" t
  let t := sub "@->@" "`" t
  let t := doubleTickPass t
  let t := codeRestorePass t
  let t := sub "=" "\\=" t
  let t := sub "|" "\\|" t
  let t := sub "\x7b" "\\\x7b" t
  let t := sub "\x7d" "\\\x7d" t
  let t := sub "." "\\." t
  let t := sub "!" "\\!" t
  t

/-- `escape` (escape.py lines 163-282): the full pass pipeline followed by
the backtick parity fixer.  The `flag` argument models the truthiness of the
Python `flag=0` parameter, which is only tested by `if flag:` (lines 180 and
190); the default call is `flag := false`. -/
def escape (text : List Char) (flag : Bool) : List Char :=
  fix_uneven_backticks (escapeCore text flag)

/-- Claim C4: parity repair.  In the output of `fix_uneven_backticks` — and
hence of `escape`, whose last stage it is (final conjunct) — every line
outside a fenced code block whose input form has an odd count of unescaped
backticks is rewritten so that every one of its backticks is escaped
(preceded by a backslash); equivalently, every outside-fence output line
has an even number of unescaped backticks. -/
theorem parity_repair (t : List Char) (i : Nat)
    (h1 : i < (splitNl t).length)
    (h2 : i < (splitNl (fix_uneven_backticks t)).length)
    (hfence : isFenceLine ((splitNl t).get ⟨i, h1⟩) = false)
    (hout : stateAt (splitNl t) i = false) :
    (countTicks (removeEscTicks ((splitNl t).get ⟨i, h1⟩)) % 2 = 1 →
      (splitNl (fix_uneven_backticks t)).get ⟨i, h2⟩
          = escTicksLine ((splitNl t).get ⟨i, h1⟩) ∧
        allTicksEscaped ((splitNl (fix_uneven_backticks t)).get ⟨i, h2⟩) = true) ∧
    countTicks (removeEscTicks
        ((splitNl (fix_uneven_backticks t)).get ⟨i, h2⟩)) % 2 = 0 ∧
    (∀ (u : List Char) (fl : Bool), escape u fl = fix_uneven_backticks (escapeCore u fl)) := by
  have hsf := splitNl_fix t
  have h2' : i < (fixLines false (splitNl t)).length := by rw [← hsf]; exact h2
  have get_congr : ∀ (A B : List (List Char)), A = B → ∀ (hA : i < A.length)
      (hB : i < B.length), A.get ⟨i, hA⟩ = B.get ⟨i, hB⟩ := by
    intro A B hAB hA hB
    subst hAB
    rfl
  have hget : (splitNl (fix_uneven_backticks t)).get ⟨i, h2⟩
      = (fixLines false (splitNl t)).get ⟨i, h2'⟩ :=
    get_congr _ _ hsf h2 h2'
  have hline : (splitNl (fix_uneven_backticks t)).get ⟨i, h2⟩
      = lineOut (stateAt (splitNl t) i) ((splitNl t).get ⟨i, h1⟩) := by
    rw [hget, fixLines_get (splitNl t) false i h1 h2']
    rfl
  rw [hline, hout]
  unfold lineOut
  rw [if_neg (by rw [hfence]; exact Bool.false_ne_true), if_neg Bool.false_ne_true]
  by_cases hodd : countTicks (removeEscTicks ((splitNl t).get ⟨i, h1⟩)) % 2 = 1
  · rw [if_pos hodd]
    refine ⟨fun _ => ⟨rfl, allTicksEscaped_escTicksLine _⟩, ?_, fun u fl => rfl⟩
    rw [countTicks_zero_of_allEscaped _ (allTicksEscaped_escTicksLine _)]
  · rw [if_neg hodd]
    exact ⟨fun hcon => absurd hcon hodd, by omega, fun u fl => rfl⟩

/-- Witness for C4 on the concrete input `"a`b"`: a single line outside any
fence with one (odd) unescaped backtick. -/
theorem parity_repair_witness :
    (0 < (splitNl (strL "a`b")).length ∧
      0 < (splitNl (fix_uneven_backticks (strL "a`b"))).length ∧
      isFenceLine ((splitNl (strL "a`b")).get ⟨0, by decide⟩) = false ∧
      stateAt (splitNl (strL "a`b")) 0 = false) ∧
    ((countTicks (removeEscTicks ((splitNl (strL "a`b")).get ⟨0, by decide⟩)) % 2 = 1 →
      (splitNl (fix_uneven_backticks (strL "a`b"))).get ⟨0, by decide⟩
          = escTicksLine ((splitNl (strL "a`b")).get ⟨0, by decide⟩) ∧
        allTicksEscaped
          ((splitNl (fix_uneven_backticks (strL "a`b"))).get ⟨0, by decide⟩) = true) ∧
    countTicks (removeEscTicks
        ((splitNl (fix_uneven_backticks (strL "a`b"))).get ⟨0, by decide⟩)) % 2 = 0 ∧
    (∀ (u : List Char) (fl : Bool), escape u fl = fix_uneven_backticks (escapeCore u fl))) :=
  ⟨⟨by decide, by decide, by decide, by decide⟩,
    parity_repair (strL "a`b") 0 (by decide) (by decide) (by decide) (by decide)⟩

/-- Substring test: `p` occurs somewhere in the text. -/
def infixOf (p : List Char) : List Char → Bool
  | [] => List.isPrefixOf p []
  | c :: r => List.isPrefixOf p (c :: r) || infixOf p r

/-- No internally used sentinel sequence occurs in the text: `@@@`, `@->@`,
`@<-@`, `@-->@`, `@<--@`, `@<@`, `@+>@`, `@<+@`, `^^^`. -/
def noSentinel (l : List Char) : Bool :=
  !(infixOf (strL "@@@") l) && !(infixOf (strL "@->@") l) &&
  !(infixOf (strL "@<-@") l) && !(infixOf (strL "@-->@") l) &&
  !(infixOf (strL "@<--@") l) && !(infixOf (strL "@<@") l) &&
  !(infixOf (strL "@+>@") l) && !(infixOf (strL "@<+@") l) &&
  !(infixOf (strL "^^^") l)

/-- Claim C5: totality.  `escape` is a total function of the input text and
flag: for every input it returns a result, with no error branch and no
exception (the Lean embedding is a total, structurally terminating function,
mirroring the Python code's absence of raising operations), and on the
malformed inputs the claim names — an unterminated fence, a stray backtick,
an unmatched bracket — it terminates normally with a concrete string. -/
theorem escape_total :
    (∀ (t : List Char) (flag : Bool), ∃ out, escape t flag = out) ∧
    escape (strL "```unterminated") false = strL "\\`\\`\\`unterminated" ∧
    escape (strL "`x") false = strL "\\`x" ∧
    escape (strL "a[b(") false = strL "a\\[b\\(" :=
  ⟨fun t flag => ⟨escape t flag, rfl⟩, by decide, by decide, by decide⟩

/-- Claim C7: Scenario A.  `escape "Intro\n- item1\n- item2"` (default flag)
returns exactly `"Intro\n\n• item1\n\n• item2"`. -/
theorem scenario_a :
    escape (strL "Intro\n- item1\n- item2") false
      = strL "Intro\n\n• item1\n\n• item2" := by decide

/-- Claim C10: empty input.  `escape "" flag` returns the empty string for
every flag value. -/
theorem escape_empty : ∀ flag : Bool, escape (strL "") flag = strL "" := by
  intro flag
  cases flag <;> rfl

/-- Counterexample to claim C6 (Scenario B): on the input
`"[OpenAI](https://openai.com)."` the output of `escape` is not the claimed
`"[OpenAI](https://openai.com)\."` — the final dot pass (line 276) also
escapes the dot inside the restored URL. -/
theorem scenario_b_cex :
    escape (strL "[OpenAI](https://openai.com).") false
      ≠ strL "[OpenAI](https://openai.com)\\." := by decide

/-- Amended claim C6: the link's label, brackets and parentheses are
preserved unescaped and the trailing period is escaped, but the dot inside
the URL is escaped as well: the output is exactly
`"[OpenAI](https://openai\.com)\."`. -/
theorem scenario_b_amended :
    escape (strL "[OpenAI](https://openai.com).") false
      = strL "[OpenAI](https://openai\\.com)\\." := by decide

/-! ### Pass-identity lemmas: no pass of the pipeline touches a fenced
block whose interior consists of plain letters.  These support the amended
claim C1 below. -/

theorem isPrefixOf_cons_ne (p0 c : Char) (pr r : List Char) (h : ¬ c = p0) :
    List.isPrefixOf (p0 :: pr) (c :: r) = false := by
  simp only [List.isPrefixOf, Bool.and_eq_false_iff]
  left
  simp only [beq_eq_false_iff_ne, ne_eq]
  intro he
  exact h he.symm

theorem isPrefixOf_self_append (p x : List Char) :
    List.isPrefixOf p (p ++ x) = true := by
  induction p with
  | nil => simp [List.isPrefixOf]
  | cons a p ih => simp [List.isPrefixOf, ih]

theorem notInfix_head (p0 : Char) (pr l : List Char) (h : ∀ c ∈ l, ¬ c = p0) :
    infixOf (p0 :: pr) l = false := by
  induction l with
  | nil => rfl
  | cons c r ih =>
    simp only [infixOf, Bool.or_eq_false_iff]
    exact ⟨isPrefixOf_cons_ne p0 c pr r (h c (List.mem_cons_self c r)),
      ih (fun d hd => h d (List.mem_cons_of_mem c hd))⟩

theorem notInfix_second (p0 p1 : Char) (pr l : List Char)
    (h : ∀ c ∈ l, ¬ c = p1) : infixOf (p0 :: p1 :: pr) l = false := by
  induction l with
  | nil => rfl
  | cons c r ih =>
    simp only [infixOf, Bool.or_eq_false_iff]
    refine ⟨?_, ih (fun d hd => h d (List.mem_cons_of_mem c hd))⟩
    cases r with
    | nil =>
      simp [List.isPrefixOf]
    | cons c2 r2 =>
      have h2 : ¬ c2 = p1 :=
        h c2 (List.mem_cons_of_mem c (List.mem_cons_self c2 r2))
      simp only [List.isPrefixOf, Bool.and_eq_false_iff]
      right
      left
      simp only [beq_eq_false_iff_ne, ne_eq]
      intro he
      exact h2 he.symm

theorem subGo_id (pat rep : List Char) :
    ∀ (fuel : Nat) (l : List Char), infixOf pat l = false →
      subGo fuel pat rep l = l := by
  intro fuel
  induction fuel with
  | zero => intro l _; rfl
  | succ k ih =>
    intro l h
    cases l with
    | nil =>
      have hp : List.isPrefixOf pat ([] : List Char) = false := h
      simp only [subGo]
      rw [if_neg (by simp [hp])]
    | cons c r =>
      simp only [infixOf, Bool.or_eq_false_iff] at h
      simp only [subGo]
      rw [if_neg (by simp [h.1]), ih r h.2]

theorem sub_id (pat rep : String) (l : List Char)
    (h : infixOf (strL pat) l = false) : sub pat rep l = l :=
  subGo_id (strL pat) (strL rep) l.length l h

theorem boldSaveGo_id : ∀ (fuel : Nat) (l : List Char),
    (∀ c ∈ l, ¬ c = Char.ofNat 42) → boldSaveGo fuel l = l := by
  intro fuel
  induction fuel with
  | zero => intro l _; rfl
  | succ k ih =>
    intro l h
    cases l with
    | nil => rfl
    | cons c r =>
      have hpre : List.isPrefixOf (strL "**") (c :: r) = false := by
        rw [show strL "**" = [Char.ofNat 42, Char.ofNat 42] from by decide]
        exact isPrefixOf_cons_ne _ _ _ _ (h c (List.mem_cons_self c r))
      simp only [boldSaveGo, hpre, Bool.false_eq_true, if_false]
      rw [ih r (fun d hd => h d (List.mem_cons_of_mem c hd))]

theorem boldRestoreGo_id : ∀ (fuel : Nat) (l : List Char),
    (∀ c ∈ l, ¬ c = atC) → boldRestoreGo fuel l = l := by
  intro fuel
  induction fuel with
  | zero => intro l _; rfl
  | succ k ih =>
    intro l h
    cases l with
    | nil => rfl
    | cons c r =>
      have hpre : List.isPrefixOf (strL "@@@") (c :: r) = false := by
        rw [show strL "@@@" = [atC, atC, atC] from by decide]
        exact isPrefixOf_cons_ne _ _ _ _ (h c (List.mem_cons_self c r))
      simp only [boldRestoreGo, hpre, Bool.false_eq_true, if_false]
      rw [ih r (fun d hd => h d (List.mem_cons_of_mem c hd))]

theorem linkRestoreGo_id : ∀ (fuel : Nat) (l : List Char),
    (∀ c ∈ l, ¬ c = atC) → linkRestoreGo fuel l = l := by
  intro fuel
  induction fuel with
  | zero => intro l _; rfl
  | succ k ih =>
    intro l h
    cases l with
    | nil => rfl
    | cons c r =>
      have hpre : List.isPrefixOf (strL "@@@") (c :: r) = false := by
        rw [show strL "@@@" = [atC, atC, atC] from by decide]
        exact isPrefixOf_cons_ne _ _ _ _ (h c (List.mem_cons_self c r))
      simp only [linkRestoreGo, hpre, Bool.false_eq_true, if_false]
      rw [ih r (fun d hd => h d (List.mem_cons_of_mem c hd))]

theorem doubleTickGo_id : ∀ (fuel : Nat) (l : List Char),
    (∀ c ∈ l, ¬ c = bqC) → doubleTickGo fuel l = l := by
  intro fuel
  induction fuel with
  | zero => intro l _; rfl
  | succ k ih =>
    intro l h
    cases l with
    | nil => rfl
    | cons c r =>
      have hpre : List.isPrefixOf (strL "``") (c :: r) = false := by
        rw [show strL "``" = [bqC, bqC] from by decide]
        exact isPrefixOf_cons_ne _ _ _ _ (h c (List.mem_cons_self c r))
      simp only [doubleTickGo, hpre, Bool.false_eq_true, if_false]
      rw [ih r (fun d hd => h d (List.mem_cons_of_mem c hd))]

theorem bulletStarGo_id : ∀ (fuel : Nat) (l : List Char),
    (∀ c ∈ l, ¬ c = nlC) → bulletStarGo fuel l = l := by
  intro fuel
  induction fuel with
  | zero => intro l _; rfl
  | succ k ih =>
    intro l h
    cases l with
    | nil => rfl
    | cons c r =>
      simp only [bulletStarGo]
      rw [if_neg (h c (List.mem_cons_self c r)),
          ih r (fun d hd => h d (List.mem_cons_of_mem c hd))]

theorem numberedGo_id : ∀ (fuel : Nat) (l : List Char),
    (∀ c ∈ l, ¬ c = nlC) → numberedGo fuel l = l := by
  intro fuel
  induction fuel with
  | zero => intro l _; rfl
  | succ k ih =>
    intro l h
    cases l with
    | nil => rfl
    | cons c r =>
      simp only [numberedGo]
      rw [if_neg (h c (List.mem_cons_self c r)),
          ih r (fun d hd => h d (List.mem_cons_of_mem c hd))]

theorem dashBulletGo_id : ∀ (fuel : Nat) (l : List Char),
    (∀ c ∈ l, ¬ c = nlC) → dashBulletGo fuel l = l := by
  intro fuel
  induction fuel with
  | zero => intro l _; rfl
  | succ k ih =>
    intro l h
    cases l with
    | nil => rfl
    | cons c r =>
      simp only [dashBulletGo]
      rw [if_neg (h c (List.mem_cons_self c r)),
          ih r (fun d hd => h d (List.mem_cons_of_mem c hd))]

theorem linkSaveGo_id : ∀ (fuel : Nat) (l : List Char),
    (∀ c ∈ l, ¬ c = '!') → (∀ c ∈ l, ¬ c = '[') → linkSaveGo fuel l = l := by
  intro fuel
  induction fuel with
  | zero => intro l _ _; rfl
  | succ k ih =>
    intro l h1 h2
    cases l with
    | nil => rfl
    | cons c r =>
      simp only [linkSaveGo]
      rw [if_neg (h1 c (List.mem_cons_self c r)),
          if_neg (h2 c (List.mem_cons_self c r)),
          ih r (fun d hd => h1 d (List.mem_cons_of_mem c hd))
               (fun d hd => h2 d (List.mem_cons_of_mem c hd))]

theorem closeAny1_through (d0 : Char) (dr : List Char) :
    ∀ (I acc : List Char), acc ++ I ≠ [] → (∀ c ∈ I, ¬ c = d0) →
      closeAny1 (d0 :: dr) acc (I ++ (d0 :: dr)) = some (acc ++ I, []) := by
  intro I
  induction I with
  | nil =>
    intro acc hne h
    have hacc : acc ≠ [] := by simpa using hne
    have hp : List.isPrefixOf (d0 :: dr) (d0 :: dr) = true := by
      have := isPrefixOf_self_append (d0 :: dr) []
      rwa [List.append_nil] at this
    show closeAny1 (d0 :: dr) acc (d0 :: dr) = some (acc ++ [], [])
    simp only [closeAny1]
    rw [if_pos ⟨hacc, hp⟩, List.drop_length, List.append_nil]
  | cons c I2 ih =>
    intro acc hne h
    show closeAny1 (d0 :: dr) acc (c :: (I2 ++ (d0 :: dr)))
        = some (acc ++ (c :: I2), [])
    have hpre : List.isPrefixOf (d0 :: dr) (c :: (I2 ++ (d0 :: dr))) = false :=
      isPrefixOf_cons_ne _ _ _ _ (h c (List.mem_cons_self c I2))
    simp only [closeAny1]
    rw [if_neg (by simp [hpre]),
        ih (acc ++ [c]) (by simp) (fun d hd => h d (List.mem_cons_of_mem c hd))]
    simp

theorem codeSaveGo_fenced (I : List Char) (hne : I ≠ [])
    (hbq : ∀ c ∈ I, ¬ c = bqC) (fuel : Nat) (hf : fuel ≠ 0) :
    codeSaveGo fuel (strL "```" ++ I ++ strL "```")
      = strL "@@@" ++ I ++ strL "@@@" := by
  obtain ⟨k, rfl⟩ := Nat.exists_eq_succ_of_ne_zero hf
  have hT : strL "```" ++ I ++ strL "```"
      = bqC :: bqC :: bqC :: (I ++ strL "```") := by
    rw [show strL "```" = [bqC, bqC, bqC] from by decide]
    simp
  have hpre : List.isPrefixOf (strL "```")
      (bqC :: bqC :: bqC :: (I ++ strL "```")) = true := by
    rw [show strL "```" = [bqC, bqC, bqC] from by decide]
    simp [List.isPrefixOf]
  have hclose : closeAny1 (strL "```") [] (I ++ strL "```") = some (I, []) := by
    rw [show strL "```" = bqC :: [bqC, bqC] from by decide]
    have := closeAny1_through bqC [bqC, bqC] I [] (by simpa using hne) hbq
    simpa using this
  have hnil : codeSaveGo k [] = [] := by cases k <;> rfl
  rw [hT]
  simp only [codeSaveGo, hpre, if_true, List.drop_succ_cons, List.drop_zero,
    hclose, hnil, List.append_nil]

theorem tickInCodeGo_zone (I : List Char) (hne : I ≠ [])
    (hat : ∀ c ∈ I, ¬ c = atC) (fuel : Nat) (hf : fuel ≠ 0) :
    tickInCodeGo fuel (strL "@@@" ++ I ++ strL "@@@")
      = strL "@@@" ++ I ++ strL "@@@" := by
  obtain ⟨k, rfl⟩ := Nat.exists_eq_succ_of_ne_zero hf
  have hT : strL "@@@" ++ I ++ strL "@@@"
      = atC :: atC :: atC :: (I ++ strL "@@@") := by
    rw [show strL "@@@" = [atC, atC, atC] from by decide]
    simp
  have hpre : List.isPrefixOf (strL "@@@")
      (atC :: atC :: atC :: (I ++ strL "@@@")) = true := by
    rw [show strL "@@@" = [atC, atC, atC] from by decide]
    simp [List.isPrefixOf]
  have hclose : closeAny1 (strL "@@@") [] (I ++ strL "@@@") = some (I, []) := by
    rw [show strL "@@@" = atC :: [atC, atC] from by decide]
    have := closeAny1_through atC [atC, atC] I [] (by simpa using hne) hat
    simpa using this
  have hnil : tickInCodeGo k [] = [] := by cases k <;> rfl
  rw [hT]
  simp only [tickInCodeGo, hpre, if_true, List.drop_succ_cons, List.drop_zero,
    hclose, hnil, List.append_nil]
  exact hT

theorem codeRestoreGo_zone (I : List Char) (hne : I ≠ [])
    (hat : ∀ c ∈ I, ¬ c = atC) (fuel : Nat) (hf : fuel ≠ 0) :
    codeRestoreGo fuel (strL "@@@" ++ I ++ strL "@@@")
      = strL "```" ++ I ++ strL "```" := by
  obtain ⟨k, rfl⟩ := Nat.exists_eq_succ_of_ne_zero hf
  have hT : strL "@@@" ++ I ++ strL "@@@"
      = atC :: atC :: atC :: (I ++ strL "@@@") := by
    rw [show strL "@@@" = [atC, atC, atC] from by decide]
    simp
  have hpre : List.isPrefixOf (strL "@@@")
      (atC :: atC :: atC :: (I ++ strL "@@@")) = true := by
    rw [show strL "@@@" = [atC, atC, atC] from by decide]
    simp [List.isPrefixOf]
  have hclose : closeAny1 (strL "@@@") [] (I ++ strL "@@@") = some (I, []) := by
    rw [show strL "@@@" = atC :: [atC, atC] from by decide]
    have := closeAny1_through atC [atC, atC] I [] (by simpa using hne) hat
    simpa using this
  have hnil : codeRestoreGo k [] = [] := by cases k <;> rfl
  rw [hT]
  simp only [codeRestoreGo, hpre, if_true, List.drop_succ_cons, List.drop_zero,
    hclose, hnil, List.append_nil]

theorem fenceArm_fenced (I : List Char) (hne : I ≠ [])
    (hbq : ∀ c ∈ I, ¬ c = bqC) :
    fenceArm (bqC :: bqC :: bqC :: (I ++ strL "```"))
      = some (strL "```" ++ I ++ strL "```", []) := by
  have hpre : List.isPrefixOf (strL "```")
      (bqC :: bqC :: bqC :: (I ++ strL "```")) = true := by
    rw [show strL "```" = [bqC, bqC, bqC] from by decide]
    simp [List.isPrefixOf]
  have hclose : closeAny1 (strL "```") [] (I ++ strL "```") = some (I, []) := by
    rw [show strL "```" = bqC :: [bqC, bqC] from by decide]
    have := closeAny1_through bqC [bqC, bqC] I [] (by simpa using hne) hbq
    simpa using this
  simp only [fenceArm, hpre, if_true, List.drop_succ_cons, List.drop_zero, hclose]

theorem headerGo_fenced (I : List Char) (hne : I ≠ [])
    (hbq : ∀ c ∈ I, ¬ c = bqC) (fuel : Nat) (hf : fuel ≠ 0) (bol : Bool) :
    headerGo fuel bol (strL "```" ++ I ++ strL "```")
      = strL "```" ++ I ++ strL "```" := by
  obtain ⟨k, rfl⟩ := Nat.exists_eq_succ_of_ne_zero hf
  have hT : strL "```" ++ I ++ strL "```"
      = bqC :: bqC :: bqC :: (I ++ strL "```") := by
    rw [show strL "```" = [bqC, bqC, bqC] from by decide]
    simp
  have harm : headerArm (bqC :: bqC :: bqC :: (I ++ strL "```")) = none := by
    simp only [headerArm]
    rw [if_neg (by decide : ¬ bqC = '#')]
  have hnil : headerGo k false [] = [] := by cases k <;> rfl
  rw [hT]
  simp only [headerGo, harm, ite_self, fenceArm_fenced I hne hbq, hnil,
    List.append_nil, hT]

theorem plusListGo_fenced (I : List Char) (hne : I ≠ [])
    (hbq : ∀ c ∈ I, ¬ c = bqC) (fuel : Nat) (hf : fuel ≠ 0) :
    plusListGo fuel (strL "```" ++ I ++ strL "```")
      = strL "```" ++ I ++ strL "```" := by
  obtain ⟨k, rfl⟩ := Nat.exists_eq_succ_of_ne_zero hf
  have hT : strL "```" ++ I ++ strL "```"
      = bqC :: bqC :: bqC :: (I ++ strL "```") := by
    rw [show strL "```" = [bqC, bqC, bqC] from by decide]
    simp
  have hda : dashArm (bqC :: bqC :: bqC :: (I ++ strL "```")) = none := by
    simp only [dashArm]
    rw [if_neg (by decide : ¬ bqC = nlC)]
  have hnil : plusListGo k [] = [] := by cases k <;> rfl
  rw [hT]
  simp only [plusListGo, hda, fenceArm_fenced I hne hbq, hnil,
    List.append_nil, hT]
  rw [if_neg (by decide : ¬ bqC = '+')]

theorem minusEscapeGo_fenced (I : List Char) (hne : I ≠ [])
    (hbq : ∀ c ∈ I, ¬ c = bqC) (fuel : Nat) (hf : fuel ≠ 0) :
    minusEscapeGo fuel (strL "```" ++ I ++ strL "```")
      = strL "```" ++ I ++ strL "```" := by
  obtain ⟨k, rfl⟩ := Nat.exists_eq_succ_of_ne_zero hf
  have hT : strL "```" ++ I ++ strL "```"
      = bqC :: bqC :: bqC :: (I ++ strL "```") := by
    rw [show strL "```" = [bqC, bqC, bqC] from by decide]
    simp
  have hda : dashArm (bqC :: bqC :: bqC :: (I ++ strL "```")) = none := by
    simp only [dashArm]
    rw [if_neg (by decide : ¬ bqC = nlC)]
  have hnil : minusEscapeGo k [] = [] := by cases k <;> rfl
  rw [hT]
  simp only [minusEscapeGo]
  rw [if_neg (by decide : ¬ bqC = '-')]
  simp only [hda, fenceArm_fenced I hne hbq, hnil, List.append_nil, hT]

theorem minusTempGo_fenced (I : List Char) (hne : I ≠ [])
    (hbq : ∀ c ∈ I, ¬ c = bqC) (fuel : Nat) (hf : fuel ≠ 0) :
    minusTempGo fuel (strL "```" ++ I ++ strL "```")
      = strL "```" ++ I ++ strL "```" := by
  obtain ⟨k, rfl⟩ := Nat.exists_eq_succ_of_ne_zero hf
  have hT : strL "```" ++ I ++ strL "```"
      = bqC :: bqC :: bqC :: (I ++ strL "```") := by
    rw [show strL "```" = [bqC, bqC, bqC] from by decide]
    simp
  have hnil : minusTempGo k [] = [] := by cases k <;> rfl
  rw [hT]
  simp only [minusTempGo, fenceArm_fenced I hne hbq, hnil, List.append_nil, hT]

theorem fix_uneven_fenced (I : List Char)
    (hnlI : ∀ c ∈ I, ¬ c = nlC) :
    fix_uneven_backticks (strL "```" ++ I ++ strL "```")
      = strL "```" ++ I ++ strL "```" := by
  have hbq3 : ∀ c ∈ strL "```", c = bqC := by decide
  have hFnl : ∀ c ∈ strL "```" ++ I ++ strL "```", ¬ c = nlC := by
    intro c hc
    rcases List.mem_append.mp hc with hc1 | hc2
    · rcases List.mem_append.mp hc1 with hc3 | hc4
      · rw [hbq3 c hc3]; decide
      · exact hnlI c hc4
    · rw [hbq3 c hc2]; decide
  have hsplit : splitNl (strL "```" ++ I ++ strL "```")
      = [strL "```" ++ I ++ strL "```"] :=
    splitNl_single _ hFnl
  have hstrip : pyStrip (strL "```" ++ I ++ strL "```")
      = strL "```" ++ I ++ strL "```" := by
    have hT : strL "```" ++ I ++ strL "```"
        = bqC :: bqC :: bqC :: (I ++ strL "```") := by
      rw [show strL "```" = [bqC, bqC, bqC] from by decide]
      simp
    have h1 : (strL "```" ++ I ++ strL "```").dropWhile isPySpace
        = strL "```" ++ I ++ strL "```" := by
      rw [hT]
      simp [List.dropWhile_cons, show isPySpace bqC = false from by decide]
    have hrev : (strL "```" ++ I ++ strL "```").reverse
        = bqC :: bqC :: bqC :: (strL "```" ++ I).reverse := by
      rw [List.reverse_append, show (strL "```").reverse = [bqC, bqC, bqC] from by decide]
      simp
    have h2 : (strL "```" ++ I ++ strL "```").reverse.dropWhile isPySpace
        = (strL "```" ++ I ++ strL "```").reverse := by
      rw [hrev]
      simp [List.dropWhile_cons, show isPySpace bqC = false from by decide]
    unfold pyStrip
    rw [h1, h2, List.reverse_reverse]
  have hfence : isFenceLine (strL "```" ++ I ++ strL "```") = true := by
    unfold isFenceLine
    rw [hstrip, List.append_assoc]
    exact isPrefixOf_self_append _ _
  have hlo : lineOut false (strL "```" ++ I ++ strL "```")
      = strL "```" ++ I ++ strL "```" := by
    unfold lineOut
    rw [if_pos hfence]
  unfold fix_uneven_backticks
  rw [hsplit,
      show fixLines false [strL "```" ++ I ++ strL "```"]
        = [lineOut false (strL "```" ++ I ++ strL "```")] from rfl,
      hlo]
  rfl

/-- Fence opacity for dialect-free interiors: a fenced block whose interior
is a nonempty string of plain ASCII letters passes through every pass of
`escape` byte-identically, for both flag values.  Each pass either finds no
match (its trigger characters do not occur) or consumes the whole fence as
an opaque/protected region and re-emits it verbatim. -/
theorem escape_fenced_alpha (I : List Char) (flag : Bool) (hne : I ≠ [])
    (hα : ∀ c ∈ I, c.isAlpha = true) :
    escape (strL "```" ++ I ++ strL "```") flag = strL "```" ++ I ++ strL "```" := by
  have havoid : ∀ (x : Char), x.isAlpha = false → ∀ c ∈ I, ¬ c = x := by
    intro x hx c hc he
    have h1 := hα c hc
    rw [he, hx] at h1
    exact Bool.false_ne_true h1
  have hbq3 : ∀ c ∈ strL "```", c = bqC := by decide
  have hat3 : ∀ c ∈ strL "@@@", c = atC := by decide
  have hFavoid : ∀ (x : Char), x.isAlpha = false → ¬ bqC = x →
      ∀ c ∈ strL "```" ++ I ++ strL "```", ¬ c = x := by
    intro x hx hbx c hc
    rcases List.mem_append.mp hc with hc1 | hc2
    · rcases List.mem_append.mp hc1 with hc3 | hc4
      · rw [hbq3 c hc3]; exact hbx
      · exact havoid x hx c hc4
    · rw [hbq3 c hc2]; exact hbx
  have hZavoid : ∀ (x : Char), x.isAlpha = false → ¬ atC = x →
      ∀ c ∈ strL "@@@" ++ I ++ strL "@@@", ¬ c = x := by
    intro x hx hax c hc
    rcases List.mem_append.mp hc with hc1 | hc2
    · rcases List.mem_append.mp hc1 with hc3 | hc4
      · rw [hat3 c hc3]; exact hax
      · exact havoid x hx c hc4
    · rw [hat3 c hc2]; exact hax
  have hbqI : ∀ c ∈ I, ¬ c = bqC := havoid bqC (by decide)
  have hatI : ∀ c ∈ I, ¬ c = atC := havoid atC (by decide)
  have hT : strL "```" ++ I ++ strL "```" = bqC :: bqC :: bqC :: (I ++ strL "```") := by
    rw [show strL "```" = [bqC, bqC, bqC] from by decide]
    simp
  have hTZ : strL "@@@" ++ I ++ strL "@@@" = atC :: atC :: atC :: (I ++ strL "@@@") := by
    rw [show strL "@@@" = [atC, atC, atC] from by decide]
    simp
  have hFlen : (strL "```" ++ I ++ strL "```").length ≠ 0 := by rw [hT]; simp
  have hZlen : (strL "@@@" ++ I ++ strL "@@@").length ≠ 0 := by rw [hTZ]; simp
  have h01 : sub "\\[" "@->@" (strL "```" ++ I ++ strL "```") = strL "```" ++ I ++ strL "```" := by
    apply sub_id
    rw [show strL "\\[" = bsC :: strL "[" from by decide]
    exact notInfix_head _ _ _ (hFavoid bsC (by decide) (by decide))
  have h02 : sub "\\]" "@<-@" (strL "```" ++ I ++ strL "```") = strL "```" ++ I ++ strL "```" := by
    apply sub_id
    rw [show strL "\\]" = bsC :: strL "]" from by decide]
    exact notInfix_head _ _ _ (hFavoid bsC (by decide) (by decide))
  have h03 : sub "\\(" "@-->@" (strL "```" ++ I ++ strL "```") = strL "```" ++ I ++ strL "```" := by
    apply sub_id
    rw [show strL "\\(" = bsC :: strL "(" from by decide]
    exact notInfix_head _ _ _ (hFavoid bsC (by decide) (by decide))
  have h04 : sub "\\)" "@<--@" (strL "```" ++ I ++ strL "```") = strL "```" ++ I ++ strL "```" := by
    apply sub_id
    rw [show strL "\\)" = bsC :: strL ")" from by decide]
    exact notInfix_head _ _ _ (hFavoid bsC (by decide) (by decide))
  have h05 : sub "\\\\" "@@@" (strL "```" ++ I ++ strL "```") = strL "```" ++ I ++ strL "```" := by
    apply sub_id
    rw [show strL "\\\\" = bsC :: strL "\\" from by decide]
    exact notInfix_head _ _ _ (hFavoid bsC (by decide) (by decide))
  have h06 : sub "\\`" "@<@" (strL "```" ++ I ++ strL "```") = strL "```" ++ I ++ strL "```" := by
    apply sub_id
    rw [show strL "\\`" = bsC :: strL "`" from by decide]
    exact notInfix_head _ _ _ (hFavoid bsC (by decide) (by decide))
  have h07 : sub "\\" "\\\\" (strL "```" ++ I ++ strL "```") = strL "```" ++ I ++ strL "```" := by
    apply sub_id
    rw [show strL "\\" = bsC :: strL "" from by decide]
    exact notInfix_head _ _ _ (hFavoid bsC (by decide) (by decide))
  have h08 : sub "@@@" "\\\\" (strL "```" ++ I ++ strL "```") = strL "```" ++ I ++ strL "```" := by
    apply sub_id
    rw [show strL "@@@" = atC :: strL "@@" from by decide]
    exact notInfix_head _ _ _ (hFavoid atC (by decide) (by decide))
  have h09 : sub "_" "\\_" (strL "```" ++ I ++ strL "```") = strL "```" ++ I ++ strL "```" := by
    apply sub_id
    rw [show strL "_" = '_' :: strL "" from by decide]
    exact notInfix_head _ _ _ (hFavoid '_' (by decide) (by decide))
  have h12 : sub "*" "\\*" (strL "```" ++ I ++ strL "```") = strL "```" ++ I ++ strL "```" := by
    apply sub_id
    rw [show strL "*" = Char.ofNat 42 :: strL "" from by decide]
    exact notInfix_head _ _ _ (hFavoid (Char.ofNat 42) (by decide) (by decide))
  have h15 : sub "[" "\\[" (strL "```" ++ I ++ strL "```") = strL "```" ++ I ++ strL "```" := by
    apply sub_id
    rw [show strL "[" = '[' :: strL "" from by decide]
    exact notInfix_head _ _ _ (hFavoid '[' (by decide) (by decide))
  have h16 : sub "]" "\\]" (strL "```" ++ I ++ strL "```") = strL "```" ++ I ++ strL "```" := by
    apply sub_id
    rw [show strL "]" = ']' :: strL "" from by decide]
    exact notInfix_head _ _ _ (hFavoid ']' (by decide) (by decide))
  have h17 : sub "(" "\\(" (strL "```" ++ I ++ strL "```") = strL "```" ++ I ++ strL "```" := by
    apply sub_id
    rw [show strL "(" = '(' :: strL "" from by decide]
    exact notInfix_head _ _ _ (hFavoid '(' (by decide) (by decide))
  have h18 : sub ")" "\\)" (strL "```" ++ I ++ strL "```") = strL "```" ++ I ++ strL "```" := by
    apply sub_id
    rw [show strL ")" = ')' :: strL "" from by decide]
    exact notInfix_head _ _ _ (hFavoid ')' (by decide) (by decide))
  have h19 : sub "@->@" "\\[" (strL "```" ++ I ++ strL "```") = strL "```" ++ I ++ strL "```" := by
    apply sub_id
    rw [show strL "@->@" = atC :: strL "->@" from by decide]
    exact notInfix_head _ _ _ (hFavoid atC (by decide) (by decide))
  have h20 : sub "@<-@" "\\]" (strL "```" ++ I ++ strL "```") = strL "```" ++ I ++ strL "```" := by
    apply sub_id
    rw [show strL "@<-@" = atC :: strL "<-@" from by decide]
    exact notInfix_head _ _ _ (hFavoid atC (by decide) (by decide))
  have h21 : sub "@-->@" "\\(" (strL "```" ++ I ++ strL "```") = strL "```" ++ I ++ strL "```" := by
    apply sub_id
    rw [show strL "@-->@" = atC :: strL "-->@" from by decide]
    exact notInfix_head _ _ _ (hFavoid atC (by decide) (by decide))
  have h22 : sub "@<--@" "\\)" (strL "```" ++ I ++ strL "```") = strL "```" ++ I ++ strL "```" := by
    apply sub_id
    rw [show strL "@<--@" = atC :: strL "<--@" from by decide]
    exact notInfix_head _ _ _ (hFavoid atC (by decide) (by decide))
  have h24 : sub "~" "\\~" (strL "```" ++ I ++ strL "```") = strL "```" ++ I ++ strL "```" := by
    apply sub_id
    rw [show strL "~" = '~' :: strL "" from by decide]
    exact notInfix_head _ _ _ (hFavoid '~' (by decide) (by decide))
  have h25 : sub ">" "\\>" (strL "```" ++ I ++ strL "```") = strL "```" ++ I ++ strL "```" := by
    apply sub_id
    rw [show strL ">" = '>' :: strL "" from by decide]
    exact notInfix_head _ _ _ (hFavoid '>' (by decide) (by decide))
  have h27 : sub "#" "\\#" (strL "```" ++ I ++ strL "```") = strL "```" ++ I ++ strL "```" := by
    apply sub_id
    rw [show strL "#" = '#' :: strL "" from by decide]
    exact notInfix_head _ _ _ (hFavoid '#' (by decide) (by decide))
  have h31 : sub "-" "@<+@" (strL "```" ++ I ++ strL "```") = strL "```" ++ I ++ strL "```" := by
    apply sub_id
    rw [show strL "-" = '-' :: strL "" from by decide]
    exact notInfix_head _ _ _ (hFavoid '-' (by decide) (by decide))
  have h32 : sub "@+>@" "-" (strL "```" ++ I ++ strL "```") = strL "```" ++ I ++ strL "```" := by
    apply sub_id
    rw [show strL "@+>@" = atC :: strL "+>@" from by decide]
    exact notInfix_head _ _ _ (hFavoid atC (by decide) (by decide))
  have h34 : sub "@<+@" "\\-" (strL "```" ++ I ++ strL "```") = strL "```" ++ I ++ strL "```" := by
    apply sub_id
    rw [show strL "@<+@" = atC :: strL "<+@" from by decide]
    exact notInfix_head _ _ _ (hFavoid atC (by decide) (by decide))
  have h43 : sub "=" "\\=" (strL "```" ++ I ++ strL "```") = strL "```" ++ I ++ strL "```" := by
    apply sub_id
    rw [show strL "=" = '=' :: strL "" from by decide]
    exact notInfix_head _ _ _ (hFavoid '=' (by decide) (by decide))
  have h44 : sub "|" "\\|" (strL "```" ++ I ++ strL "```") = strL "```" ++ I ++ strL "```" := by
    apply sub_id
    rw [show strL "|" = '|' :: strL "" from by decide]
    exact notInfix_head _ _ _ (hFavoid '|' (by decide) (by decide))
  have h45 : sub "\x7b" "\\\x7b" (strL "```" ++ I ++ strL "```") = strL "```" ++ I ++ strL "```" := by
    apply sub_id
    rw [show strL "\x7b" = Char.ofNat 123 :: strL "" from by decide]
    exact notInfix_head _ _ _ (hFavoid (Char.ofNat 123) (by decide) (by decide))
  have h46 : sub "\x7d" "\\\x7d" (strL "```" ++ I ++ strL "```") = strL "```" ++ I ++ strL "```" := by
    apply sub_id
    rw [show strL "\x7d" = Char.ofNat 125 :: strL "" from by decide]
    exact notInfix_head _ _ _ (hFavoid (Char.ofNat 125) (by decide) (by decide))
  have h47 : sub "." "\\." (strL "```" ++ I ++ strL "```") = strL "```" ++ I ++ strL "```" := by
    apply sub_id
    rw [show strL "." = '.' :: strL "" from by decide]
    exact notInfix_head _ _ _ (hFavoid '.' (by decide) (by decide))
  have h48 : sub "!" "\\!" (strL "```" ++ I ++ strL "```") = strL "```" ++ I ++ strL "```" := by
    apply sub_id
    rw [show strL "!" = '!' :: strL "" from by decide]
    exact notInfix_head _ _ _ (hFavoid '!' (by decide) (by decide))
  have h10 : boldSavePass (strL "```" ++ I ++ strL "```") = strL "```" ++ I ++ strL "```" := by
    unfold boldSavePass
    exact boldSaveGo_id _ _ (hFavoid (Char.ofNat 42) (by decide) (by decide))
  have h11 : bulletStarPass (strL "```" ++ I ++ strL "```") = strL "```" ++ I ++ strL "```" := by
    unfold bulletStarPass
    exact bulletStarGo_id _ _ (hFavoid nlC (by decide) (by decide))
  have h13 : boldRestorePass (strL "```" ++ I ++ strL "```") = strL "```" ++ I ++ strL "```" := by
    unfold boldRestorePass
    exact boldRestoreGo_id _ _ (hFavoid atC (by decide) (by decide))
  have h14 : linkSavePass (strL "```" ++ I ++ strL "```") = strL "```" ++ I ++ strL "```" := by
    unfold linkSavePass
    exact linkSaveGo_id _ _ (hFavoid '!' (by decide) (by decide))
      (hFavoid '[' (by decide) (by decide))
  have h23 : linkRestorePass (strL "```" ++ I ++ strL "```") = strL "```" ++ I ++ strL "```" := by
    unfold linkRestorePass
    exact linkRestoreGo_id _ _ (hFavoid atC (by decide) (by decide))
  have h26 : headerPass (strL "```" ++ I ++ strL "```") = strL "```" ++ I ++ strL "```" := by
    unfold headerPass
    exact headerGo_fenced I hne hbqI _ (by simp) true
  have h28 : plusListPass (strL "```" ++ I ++ strL "```") = strL "```" ++ I ++ strL "```" := by
    unfold plusListPass
    exact plusListGo_fenced I hne hbqI _ hFlen
  have h29 : numberedPass (strL "```" ++ I ++ strL "```") = strL "```" ++ I ++ strL "```" := by
    unfold numberedPass
    exact numberedGo_id _ _ (hFavoid nlC (by decide) (by decide))
  have h30 : minusTempPass (strL "```" ++ I ++ strL "```") = strL "```" ++ I ++ strL "```" := by
    unfold minusTempPass
    exact minusTempGo_fenced I hne hbqI _ hFlen
  have h33 : dashBulletPass (strL "```" ++ I ++ strL "```") = strL "```" ++ I ++ strL "```" := by
    unfold dashBulletPass
    exact dashBulletGo_id _ _ (hFavoid nlC (by decide) (by decide))
  have h35 : minusEscapePass (strL "```" ++ I ++ strL "```") = strL "```" ++ I ++ strL "```" := by
    unfold minusEscapePass
    exact minusEscapeGo_fenced I hne hbqI _ hFlen
  have h36 : codeSavePass (strL "```" ++ I ++ strL "```") = strL "@@@" ++ I ++ strL "@@@" := by
    unfold codeSavePass
    exact codeSaveGo_fenced I hne hbqI _ hFlen
  have h37 : tickInCodePass (strL "@@@" ++ I ++ strL "@@@") = strL "@@@" ++ I ++ strL "@@@" := by
    unfold tickInCodePass
    exact tickInCodeGo_zone I hne hatI _ hZlen
  have h38 : sub "`" "\\`" (strL "@@@" ++ I ++ strL "@@@") = strL "@@@" ++ I ++ strL "@@@" := by
    apply sub_id
    rw [show strL "`" = bqC :: strL "" from by decide]
    exact notInfix_head _ _ _ (hZavoid bqC (by decide) (by decide))
  have h39 : sub "@<@" "\\`" (strL "@@@" ++ I ++ strL "@@@") = strL "@@@" ++ I ++ strL "@@@" := by
    apply sub_id
    rw [show strL "@<@" = atC :: '<' :: strL "@" from by decide]
    exact notInfix_second _ _ _ _ (hZavoid '<' (by decide) (by decide))
  have h40 : sub "@->@" "`" (strL "@@@" ++ I ++ strL "@@@") = strL "@@@" ++ I ++ strL "@@@" := by
    apply sub_id
    rw [show strL "@->@" = atC :: '-' :: strL ">@" from by decide]
    exact notInfix_second _ _ _ _ (hZavoid '-' (by decide) (by decide))
  have h41 : doubleTickPass (strL "@@@" ++ I ++ strL "@@@") = strL "@@@" ++ I ++ strL "@@@" := by
    unfold doubleTickPass
    exact doubleTickGo_id _ _ (hZavoid bqC (by decide) (by decide))
  have h42 : codeRestorePass (strL "@@@" ++ I ++ strL "@@@") = strL "```" ++ I ++ strL "```" := by
    unfold codeRestorePass
    exact codeRestoreGo_zone I hne hatI _ hZlen
  have hfix : fix_uneven_backticks (strL "```" ++ I ++ strL "```") = strL "```" ++ I ++ strL "```" :=
    fix_uneven_fenced I (havoid nlC (by decide))
  show fix_uneven_backticks (escapeCore (strL "```" ++ I ++ strL "```") flag) = strL "```" ++ I ++ strL "```"
  suffices hcore : escapeCore (strL "```" ++ I ++ strL "```") flag = strL "```" ++ I ++ strL "```" by rw [hcore]; exact hfix
  simp only [escapeCore]
  rw [h01, h02, h03, h04, h05, ite_self, h06, h07, h08, ite_self, h09,
      h10, h11, h12, h13, h14, h15, h16, h17, h18, h19, h20, h21, h22,
      h23, h24, h25, h26, h27, h28, h29, h30, h31, h32, h33, h34, h35,
      h36, h37, h38, h39, h40, h41, h42, h43, h44, h45, h46, h47, h48]

/-- Counterexample to claim C1 (fence opacity): for the well-formed fenced
input `"```a.b```"` the interior obtained from the output after stripping
the fence delimiters is `"a\.b"`, not the original `"a.b"`: code blocks are
restored (line 269) before the final punctuation escaping (lines 272-277),
which therefore alters fence interiors. -/
theorem fence_opacity_cex :
    escape (strL "```a.b```") false = strL "```a\\.b```" ∧
    pySlice (escape (strL "```a.b```") false) 3
        ((escape (strL "```a.b```") false).length - 3)
      ≠ pySlice (strL "```a.b```") 3 ((strL "```a.b```").length - 3) := by decide

/-- Amended claim C1: fence interiors are opaque only for interiors built
from plain letters, and are altered otherwise.  Positively: every fenced
block whose interior is a nonempty string of ASCII letters round-trips
byte-identically through `escape`, for both flag values (first conjunct,
a universal statement).  Negatively: many character passes of `escape`
are applied globally and do reach fence interiors — the final `=|{}.!`
escaping at lines 272-277 runs after fences are restored at line 269
(`.`), the underscore pass at line 194, the minus dance at lines 244-251
(`-`), the tilde and hash passes at lines 227/234, the backtick sub at
line 261 while the body is sentinel-protected, and even the bullet-list
and numbered-list passes at lines 200/240 fire on list markers inside a
fence.  The remaining conjuncts exhibit one alteration for each of these
passes. -/
theorem fence_opacity_amended :
    (∀ (I : List Char) (flag : Bool), I ≠ [] → (∀ c ∈ I, c.isAlpha = true) →
      escape (strL "```" ++ I ++ strL "```") flag = strL "```" ++ I ++ strL "```") ∧
    escape (strL "```a.b```") false = strL "```a\\.b```" ∧
    escape (strL "```a_b```") false = strL "```a\\_b```" ∧
    escape (strL "```a-b```") false = strL "```a\\-b```" ∧
    escape (strL "```a~b```") false = strL "```a\\~b```" ∧
    escape (strL "```a#b```") false = strL "```a\\#b```" ∧
    escape (strL "```a`b```") false = strL "```a\\`b```" ∧
    escape (strL "```\n* a\n```") false = strL "```\n\n• a\n```" ∧
    escape (strL "```\n1. x\n```") false = strL "```\n\n1\\. x\n```" :=
  ⟨fun I flag hne hα => escape_fenced_alpha I flag hne hα, by decide⟩

/-- Witness for `fence_opacity_amended`: its universal conjunct applied to
the concrete nonempty all-alphabetic interior `"abc"` with flag `true`. -/
theorem fence_opacity_amended_witness :
    (strL "abc" ≠ [] ∧ ∀ c ∈ strL "abc", c.isAlpha = true) ∧
    escape (strL "```" ++ strL "abc" ++ strL "```") true
      = strL "```" ++ strL "abc" ++ strL "```" :=
  ⟨by decide, fence_opacity_amended.1 (strL "abc") true (by decide) (by decide)⟩

/-- Counterexample to claim C2 (zero-leak): the input `"@@@"` consists of a
sentinel sequence; every pass leaves it unchanged (no pass rewrites a bare
`@`), so the output contains the sentinel `@@@`. -/
theorem zero_leak_cex :
    escape (strL "@@@") false = strL "@@@" ∧
    noSentinel (escape (strL "@@@") false) = false := by decide

/-- Amended claim C2: zero-leak fails even for inputs that are free of
every sentinel sequence.  The sentinel-free input `"[->\`z](u)"` (no `@`,
no `^`) produces `"@@\[<@z@@@^^^u^^^"`, leaking `@@@` and `^^^`: the link
pass (line 209) wraps the label in `@@@...@@@`, and the later literal
restore `@->@ → \[` (line 218) then matches overlapping the third `@` of
that sentinel, corrupting it so the link-restore pass (line 224) never
fires (first three conjuncts).  Zero-leak does hold on the verified
representative sentinel-free inputs exercising each sentinel class —
pre-escaped brackets and parentheses, bold spans, links, dashes, inline
and fenced code with embedded dashes, doubled backslashes under the flag,
and escaped backticks (remaining conjuncts) — but is not a universal
property even of sentinel-alphabet-free inputs. -/
theorem zero_leak_amended :
    noSentinel (strL "[->\\`z](u)") = true ∧
    escape (strL "[->\\`z](u)") false = strL "@@\\[<@z@@@^^^u^^^" ∧
    noSentinel (escape (strL "[->\\`z](u)") false) = false ∧
    noSentinel (escape (strL "\\[a\\] \\(b\\)") false) = true ∧
    noSentinel (escape (strL "**bold** and *x*") false) = true ∧
    noSentinel (escape (strL "[lnk](http://e.com/a-b)") false) = true ∧
    noSentinel (escape (strL "`code` and ``` \nf-g\n``` done") false) = true ∧
    noSentinel (escape (strL "a\\\\b") true) = true ∧
    noSentinel (escape (strL "\\` x `y` -z") false) = true ∧
    noSentinel (escape (strL "# Title\n1. x\n2. y") false) = true := by decide

